import Mathlib

/-!
# Apicurio registry e2e test harness: log collector and test-case runner

A shallow embedding of `testsuite/utils/logs/logs.go` and
`testsuite/utils/testcase/testcase.go`, and theorems on both.

* The cluster, the `kubectl` subprocess and the failure behaviour of the file system are
  read-only collaborators of the log collector: they are the fields of `Logs.Cluster`.
* The file system and the logger are written to: they are the fields of `Logs.World`,
  threaded through every function of `logs.go`.
* The storage drivers, the test body, the log capture and the registered cleanups are
  opaque to the runner: `Testcase.Collaborators` says how each of their calls ends, and
  the runner records every call it makes in a trace.
* A gomega `Expect(..)` that fails calls ginkgo's `Fail`, which panics: the function stops
  there, and deferred calls still run.  A function therefore yields an `Outcome` together
  with the state it leaves behind.

The definitions come first, the theorems after them.
-/

namespace ApicurioE2E

/-- How a call ends: it returns, or it is aborted by a failed assertion (a panic). -/
inductive Outcome where
  | returned
  | failed (msg : String)
deriving DecidableEq, Repr

/-- Sequencing of two statements: the second runs only when the first returned. -/
def andThen {σ : Type} (r : Outcome × σ) (k : σ → Outcome × σ) : Outcome × σ :=
  match r.1 with
  | Outcome.returned => k r.2
  | Outcome.failed m => (Outcome.failed m, r.2)

namespace Logs

/-! ## Data model of the log collector -/

/-- The phase of a pod, `v1.PodPhase`. -/
inductive PodPhase where
  | Pending
  | Running
  | Succeeded
  | Failed
  | Unknown
deriving DecidableEq, Repr

/-- The part of `v1.ContainerStatus` that is read: the container name. -/
structure ContainerStatus where
  Name : String
deriving DecidableEq, Repr

/-- The part of `v1.Pod` that is read. -/
structure Pod where
  Name : String
  Namespace : String
  Phase : PodPhase
  ContainerStatuses : List ContainerStatus
deriving DecidableEq, Repr

/-- The part of `appsv1.Deployment` that is read: `Spec.Selector.MatchLabels` and
`Status.AvailableReplicas`. -/
structure Deployment where
  MatchLabels : List (String × String)
  AvailableReplicas : Int
deriving DecidableEq, Repr

/-- An error of the cluster API: `kubeerrors.IsNotFound` holds of `notFound` only. -/
inductive ApiError where
  | notFound
  | other (msg : String)
deriving DecidableEq, Repr

/-- A log stream as returned by `req.Stream`: `copy` is the result of `io.Copy` from it. -/
structure LogStream where
  copy : Except String String

/-- Everything the log collector reads: the constants of package `utils`, the answers of the
cluster API, the standard output of the `kubectl` subprocess, and which file-system calls
fail.  One value of this type is one fixed cluster state. -/
structure Cluster where
  /-- The variable `utils.SuiteProjectDir`. -/
  SuiteProjectDir : String
  /-- The constant `utils.OperatorDeploymentName`. -/
  OperatorDeploymentName : String
  /-- The answer of `Pods(namespace).List` for a label selector (`[]` for `ListOptions{}`). -/
  listPods : String → List (String × String) → Except String (List Pod)
  /-- The answer of `Deployments(namespace).Get(name)`. -/
  getDeployment : String → String → Except ApiError Deployment
  /-- The answer of `Pods(namespace).GetLogs(pod, options).Stream` for a container name (`""`
  for `PodLogOptions{}`). -/
  getLogs : String → String → String → Except String LogStream
  /-- The standard output of the cluster CLI for its arguments. -/
  kubectl : List String → String
  /-- The paths at which `os.Create` returns an error. -/
  createFails : String → Bool
  /-- The paths at which `ioutil.WriteFile` returns an error. -/
  writeFileFails : String → Bool

/-- One `log.Info` call. -/
structure LogEntry where
  msg : String
  keysAndValues : List String
deriving DecidableEq, Repr

/-- The file system as a list of (path, content), the directories made, the paths written
(each `os.Create` and `ioutil.WriteFile` that succeeded, in order), and the logger output. -/
structure World where
  files : List (String × String)
  dirs : List String
  written : List String
  infos : List LogEntry
deriving DecidableEq, Repr

/-! ## File-system and logger primitives -/

/-- Create or truncate-and-replace: afterwards `path` holds `content`, and no other entry
for `path` remains. -/
def putFile (path content : String) (fs : List (String × String)) : List (String × String) :=
  (path, content) :: fs.filter (fun f => decide (f.1 ≠ path))

/-- Write `out` at the end of the file at `path`. -/
def appendFile (path out : String) (fs : List (String × String)) : List (String × String) :=
  fs.map (fun f => if f.1 = path then (f.1, f.2 ++ out) else f)

/-- The call `log.Info(msg, keysAndValues...)`. -/
def logInfo (msg : String) (kvs : List String) (w : World) : World :=
  { w with infos := w.infos ++ [{ msg := msg, keysAndValues := kvs }] }

/-- The call `os.MkdirAll(dir, os.ModePerm)`; the source drops its error. -/
def MkdirAll (dir : String) (w : World) : World :=
  { w with dirs := if dir ∈ w.dirs then w.dirs else w.dirs ++ [dir] }

/-- The call `os.Create(path)` followed by `Expect(err).ToNot(HaveOccurred())`. -/
def osCreate (c : Cluster) (path : String) (w : World) : Outcome × World :=
  if c.createFails path then (Outcome.failed ("create " ++ path), w)
  else (Outcome.returned,
    { w with files := putFile path "" w.files, written := w.written ++ [path] })

/-- The call `ioutil.WriteFile(path, content, os.ModePerm)` followed by
`Expect(err).ToNot(HaveOccurred())`. -/
def WriteFile (c : Cluster) (path content : String) (w : World) : Outcome × World :=
  if c.writeFileFails path then (Outcome.failed ("write " ++ path), w)
  else (Outcome.returned,
    { w with files := putFile path content w.files, written := w.written ++ [path] })

/-- Modelled from the spec: `kubernetescli.RedirectOutput`, whose source is not in the
repository snapshot.  The CLI is "invoked as a subprocess with arguments ...; stdout
redirected to a file, stderr redirected to the process's own error stream": the standard
output of the command goes to the end of the open file. -/
def RedirectOutput (c : Cluster) (file : String) (args : List String) (w : World) : World :=
  { w with files := appendFile file (c.kubectl args) w.files }

/-! ## The functions of `logs.go` -/

/-- The function `createPodsLogFile(logsDir, namespace)`: `os.Create`, two `RedirectOutput`
calls on the file, and the deferred `Close`. -/
def createPodsLogFile (c : Cluster) (logsDir ns : String) (w : World) :
    Outcome × World :=
  andThen (osCreate c (logsDir ++ "pods.log") w) fun w =>
    let w := RedirectOutput c (logsDir ++ "pods.log") ["get", "pods", "-n", ns] w
    let w := RedirectOutput c (logsDir ++ "pods.log")
      ["get", "pods", "-n", ns, "-o", "yaml"] w
    (Outcome.returned, w)

/-- The function `createEventsLogFile(logsDir, namespace)`. -/
def createEventsLogFile (c : Cluster) (logsDir ns : String) (w : World) :
    Outcome × World :=
  andThen (osCreate c (logsDir ++ "events.log") w) fun w =>
    let w := RedirectOutput c (logsDir ++ "events.log")
      ["get", "events", "-n", ns, "--sort-by=\"\x7b.metadata.creationTimestamp\x7d\""] w
    (Outcome.returned, w)

/-- The function `createNodesLogFile(logsDir)`. -/
def createNodesLogFile (c : Cluster) (logsDir : String) (w : World) : Outcome × World :=
  andThen (osCreate c (logsDir ++ "nodes.log") w) fun w =>
    let w := RedirectOutput c (logsDir ++ "nodes.log") ["describe", "nodes"] w
    (Outcome.returned, w)

/-- The three status files, in the order both collectors write them. -/
def createStatusFiles (c : Cluster) (logsDir ns : String) (w : World) :
    Outcome × World :=
  andThen (createPodsLogFile c logsDir ns w) fun w =>
  andThen (createEventsLogFile c logsDir ns w) fun w =>
  createNodesLogFile c logsDir w

/-- The function `saveContainerLogs(clientset, logsDir, container, pod)`: stream the logs of
the container, copy them to a buffer, write the buffer to `<logsDir><pod>-<container>.log`;
each of the three steps is followed by an `Expect` on its error. -/
def saveContainerLogs (c : Cluster) (logsDir container : String) (pod : Pod) (w : World) :
    Outcome × World :=
  match c.getLogs pod.Namespace pod.Name container with
  | Except.error e => (Outcome.failed e, w)
  | Except.ok containerLogs =>
    match containerLogs.copy with
    | Except.error e => (Outcome.failed e, w)
    | Except.ok buf =>
      let logFile := logsDir ++ pod.Name ++ "-" ++ container ++ ".log"
      let w := logInfo "Storing pod logs" ["file", logFile] w
      WriteFile c logFile buf w

/-- The inner loop of `SaveTestPodsLogs`: `for _, container := range
pod.Status.ContainerStatuses`. -/
def saveContainers (c : Cluster) (logsDir : String) (pod : Pod) :
    List ContainerStatus → World → Outcome × World
  | [], w => (Outcome.returned, w)
  | container :: rest, w =>
    andThen (saveContainerLogs c logsDir container.Name pod w)
      (saveContainers c logsDir pod rest)

/-- The outer loop of `SaveTestPodsLogs`: `for _, pod := range pods.Items`. -/
def savePods (c : Cluster) (logsDir : String) : List Pod → World → Outcome × World
  | [], w => (Outcome.returned, w)
  | pod :: rest, w =>
    if pod.Phase ≠ PodPhase.Running then
      savePods c logsDir rest
        (logInfo "Skipping storing pod logs because pod is not ready" ["pod", pod.Name] w)
    else
      andThen (saveContainers c logsDir pod pod.ContainerStatuses w)
        (savePods c logsDir rest)

/-- The function `SaveTestPodsLogs(clientset, suiteID, namespace, testName)`. -/
def SaveTestPodsLogs (c : Cluster) (suiteID ns testName : String) (w : World) :
    Outcome × World :=
  let w := logInfo "Collecting test logs" ["suite", suiteID, "test", testName] w
  match c.listPods ns [] with
  | Except.error e => (Outcome.failed e, w)
  | Except.ok pods =>
    let logsDir := c.SuiteProjectDir ++ "/tests-logs/" ++ suiteID ++ "/" ++ testName
      ++ "/namespaces/" ++ ns ++ "/"
    let w := MkdirAll logsDir w
    andThen (createStatusFiles c logsDir ns w) (savePods c logsDir pods)

/-- The loop of `SaveOperatorLogs`: `for _, pod := range pods.Items`, with
`PodLogOptions` left empty (no container is named). -/
def saveOperatorPods (c : Cluster) (logsDir : String) : List Pod → World → Outcome × World
  | [], w => (Outcome.returned, w)
  | pod :: rest, w =>
    match c.getLogs pod.Namespace pod.Name "" with
    | Except.error e => (Outcome.failed e, w)
    | Except.ok podLogs =>
      match podLogs.copy with
      | Except.error e => (Outcome.failed e, w)
      | Except.ok buf =>
        let logFile := logsDir ++ pod.Name ++ ".log"
        let w := logInfo "Storing operator logs" ["file", logFile] w
        andThen (WriteFile c logFile buf w) (saveOperatorPods c logsDir rest)

/-- The function `SaveOperatorLogs(clientset, suiteID, namespace)`.  A lookup error that is
not `IsNotFound` fails the `Expect`; `AvailableReplicas == int32(0)` skips. -/
def SaveOperatorLogs (c : Cluster) (suiteID ns : String) (w : World) :
    Outcome × World :=
  let w := logInfo "Collecting operator logs" ["suite", suiteID, "namespace", ns] w
  let logsDir := c.SuiteProjectDir ++ "/tests-logs/" ++ suiteID ++ "/operator/namespaces/"
    ++ ns ++ "/"
  let w := MkdirAll logsDir w
  andThen (createStatusFiles c logsDir ns w) fun w =>
    match c.getDeployment ns c.OperatorDeploymentName with
    | Except.error ApiError.notFound =>
      (Outcome.returned,
        logInfo "Skipping storing operator logs because operator deployment not found" [] w)
    | Except.error (ApiError.other e) => (Outcome.failed e, w)
    | Except.ok operatorDeployment =>
      if operatorDeployment.AvailableReplicas = 0 then
        (Outcome.returned,
          logInfo "Skipping storing operator logs because operator deployment is not ready"
            [] w)
      else
        match c.listPods ns operatorDeployment.MatchLabels with
        | Except.error e => (Outcome.failed e, w)
        | Except.ok pods => saveOperatorPods c logsDir pods w

/-- The test name `SaveLogs` builds from `CurrentSpecReport().ContainerHierarchyTexts` and
`ctx.ID`.  `testName[0 : len(testName)-1]` cuts the last byte, which is the `-` the loop
has just written. -/
def testName (containerHierarchyTexts : List String) (ID : String) : String :=
  let testName := ""
  let testName :=
    if containerHierarchyTexts.length ≠ 0 then
      let testName :=
        containerHierarchyTexts.foldl (fun acc comp => acc ++ (comp ++ "-")) testName
      String.mk testName.data.dropLast
    else testName
  if ID ≠ "" then
    if testName.length = 0 then ID else testName ++ ("-" ++ ID)
  else testName

/-- The part of `types.SuiteContext` that `SaveLogs` reads. -/
structure SuiteContext where
  SuiteID : String

/-- The part of `types.TestContext` that `SaveLogs` reads. -/
structure TestContext where
  ID : String
  RegistryNamespace : String

/-- The function `SaveLogs(suiteCtx, ctx)`; `containerHierarchyTexts` is that field of the
value of `CurrentSpecReport()`. -/
def SaveLogs (c : Cluster) (containerHierarchyTexts : List String) (suiteCtx : SuiteContext)
    (ctx : TestContext) (w : World) : Outcome × World :=
  SaveTestPodsLogs c suiteCtx.SuiteID ctx.RegistryNamespace
    (testName containerHierarchyTexts ctx.ID) w

/-! ## The file layout of the specification

The paths the specification names, written from its words; the theorems compare them with
what the functions above write. -/

/-- The log directory of a scope, as the specification lays it out:
`<project>/tests-logs/<suiteID>/<scope>/namespaces/<namespace>/`. -/
def logsDirOf (project suiteID scope ns : String) : String :=
  project ++ "/tests-logs/" ++ suiteID ++ "/" ++ scope ++ "/namespaces/" ++ ns ++ "/"

/-- The three status files of a log directory. -/
def statusFiles (logsDir : String) : List String :=
  [logsDir ++ "pods.log", logsDir ++ "events.log", logsDir ++ "nodes.log"]

/-- The container log files of a pod list, as the specification names them:
`<podName>-<container>.log` for each container status of each pod whose phase is Running. -/
def podLogFiles (logsDir : String) (pods : List Pod) : List String :=
  (pods.filter fun pod => pod.Phase = PodPhase.Running).flatMap fun pod =>
    pod.ContainerStatuses.map fun container =>
      logsDir ++ pod.Name ++ "-" ++ container.Name ++ ".log"

/-- The operator log files of a pod list, as the specification names them: `<podName>.log`
for each pod. -/
def operatorLogFiles (logsDir : String) (pods : List Pod) : List String :=
  pods.map fun pod => logsDir ++ pod.Name ++ ".log"

/-- The path lies under the directory: the directory name starts it. -/
def inDir (dir path : String) : Bool :=
  dir.data.isPrefixOf path.data

/-- The names `<podName>-<container>` of the container statuses of the running pods. -/
def podLogNames (pods : List Pod) : List String :=
  (pods.filter fun pod => pod.Phase = PodPhase.Running).flatMap fun pod =>
    pod.ContainerStatuses.map fun container => pod.Name ++ "-" ++ container.Name

/-- The number of container statuses of the running pods: the sum of the `C_i`. -/
def runningContainers (pods : List Pod) : Nat :=
  ((pods.filter fun pod => pod.Phase = PodPhase.Running).map fun pod =>
    pod.ContainerStatuses.length).sum

/-- The messages of a skipped operator-log collection: the opening message and the note
that says why nothing is stored. -/
def skipMessages (suiteID ns note : String) : List LogEntry :=
  [{ msg := "Collecting operator logs", keysAndValues := ["suite", suiteID, "namespace", ns] },
   { msg := note, keysAndValues := [] }]

/-! ## What a run does to the world

No function of `logs.go` reads the file system or the logger: what a run writes depends on
the cluster only.  `Effect` is the summary of a run, `Uniform f` says that `f` has one, and
`WritesWithin f E` bounds the files `f` writes in every run. -/

/-- Put a list of files, first to last. -/
def putAll (ps : List (String × String)) (fs : List (String × String)) :
    List (String × String) :=
  ps.foldl (fun fs f => putFile f.1 f.2 fs) fs

/-- Make a list of directories, first to last. -/
def mkdirs (ds : List String) (dirs : List String) : List String :=
  ds.foldl (fun dirs d => if d ∈ dirs then dirs else dirs ++ [d]) dirs

/-- The summary of a run: the files put, the directories made, the messages logged. -/
structure Effect where
  puts : List (String × String)
  dirs : List String
  infos : List LogEntry

/-- The world after a run with the given summary. -/
def Effect.apply (e : Effect) (w : World) : World :=
  { files := putAll e.puts w.files
    dirs := mkdirs e.dirs w.dirs
    written := w.written ++ e.puts.map Prod.fst
    infos := w.infos ++ e.infos }

/-- One run after another. -/
def Effect.append (e₁ e₂ : Effect) : Effect :=
  { puts := e₁.puts ++ e₂.puts, dirs := e₁.dirs ++ e₂.dirs, infos := e₁.infos ++ e₂.infos }

/-- The run `f` ends the same way and has the same summary from every world. -/
def Uniform (f : World → Outcome × World) : Prop :=
  ∃ o e, ∀ w, f w = (o, Effect.apply e w)

/-- In every run, also one that is aborted, `f` writes the first files of the list `E`, in
order, and no other file. -/
def WritesWithin (f : World → Outcome × World) (E : List String) : Prop :=
  ∀ w, ∃ n, (f w).2.written = w.written ++ E.take n

/-! ## Example clusters -/

/-- A cluster with the pods of the example of the specification in namespace `ns1`:
`pod-a`, running, with containers `c1` and `c2`, and `pod-b`, pending.  No call fails. -/
def exampleCluster : Cluster :=
  { SuiteProjectDir := "/project"
    OperatorDeploymentName := "apicurio-registry-operator"
    listPods := fun _ _ =>
      Except.ok
        [{ Name := "pod-a", Namespace := "ns1", Phase := PodPhase.Running,
           ContainerStatuses := [{ Name := "c1" }, { Name := "c2" }] },
         { Name := "pod-b", Namespace := "ns1", Phase := PodPhase.Pending,
           ContainerStatuses := [{ Name := "c1" }] }]
    getDeployment := fun _ _ =>
      Except.ok { MatchLabels := [("name", "apicurio-registry-operator")],
                  AvailableReplicas := 1 }
    getLogs := fun _ pod container =>
      Except.ok { copy := Except.ok ("log of " ++ pod ++ " " ++ container) }
    kubectl := fun args => " ".intercalate args
    createFails := fun _ => false
    writeFileFails := fun _ => false }

/-- The world before anything is collected. -/
def emptyWorld : World :=
  { files := [], dirs := [], written := [], infos := [] }

/-- A cluster in which two running pods have containers whose log files get one name:
pod `a` with container `b-c`, pod `a-b` with container `c`.  No call fails. -/
def collidingCluster : Cluster :=
  { exampleCluster with
    listPods := fun _ _ =>
      Except.ok
        [{ Name := "a", Namespace := "ns1", Phase := PodPhase.Running,
           ContainerStatuses := [{ Name := "b-c" }] },
         { Name := "a-b", Namespace := "ns1", Phase := PodPhase.Running,
           ContainerStatuses := [{ Name := "c" }] }] }

/-- The operator deployment is missing; no call fails otherwise. -/
def noOperatorCluster : Cluster :=
  { exampleCluster with getDeployment := fun _ _ => Except.error ApiError.notFound }

end Logs

namespace Testcase

/-! ## `testcase.go`

The storage drivers, the functional test body, the clientset constructor, the log capture
(`utils.SaveTestPodsLogs`, three arguments: not the function of `logs.go`) and
`ctx.ExecuteCleanups` are opaque to the runner.  The runner calls each of them at most once
per test case, so a run is determined by how each call would end: these outcomes are the
fields of `Collaborators`, and the outcome of the test body is the argument `testFunction`.
Every call is recorded in a trace.  The storage tag is a dispatch key only: no collaborator
assigns `ctx.Storage`. -/

/-- Modelled from the spec: `utils.StorageJpa`, a constant of package `utils` that is not in
the repository snapshot; the relational variant, tag `jpa`. -/
def StorageJpa : String := "jpa"

/-- Modelled from the spec: `utils.StorageStreams`, a constant of package `utils` that is not
in the repository snapshot; the streaming variant, tag `streams`. -/
def StorageStreams : String := "streams"

/-- Modelled from the spec: `utils.StorageInfinispan`, a constant of package `utils` that is
not in the repository snapshot; the in-memory-grid variant, tag `infinispan`. -/
def StorageInfinispan : String := "infinispan"

/-- The three storage variants of the test table. -/
inductive Variant where
  | jpa
  | streams
  | infinispan
deriving DecidableEq, Repr

/-- The tag of a variant. -/
def Variant.tag : Variant → String
  | Variant.jpa => StorageJpa
  | Variant.streams => StorageStreams
  | Variant.infinispan => StorageInfinispan

/-- The part of `types.TestContext` the runner reads and writes. -/
structure TestContext where
  ID : String
  Storage : String
deriving DecidableEq, Repr

/-- A call the runner makes. `deploy v` is `jpa.DeployJpaRegistry`,
`streams.DeployStreamsRegistry` or `infinispan.DeployInfinispanRegistry`; `remove v` is the
matching `Remove...Registry`. -/
inductive Call where
  | info (msg : String)
  | deploy (v : Variant)
  | testFunction
  | NewForConfigOrDie
  | SaveTestPodsLogs
  | ExecuteCleanups
  | remove (v : Variant)
deriving DecidableEq, Repr

/-- How each opaque call ends in this run, were it made.  `NewForConfigOrDie` panics
(`none`) or yields a clientset, `some true` when it is nil. -/
structure Collaborators where
  deploy : Variant → Outcome
  remove : Variant → Outcome
  NewForConfigOrDie : Option Bool
  SaveTestPodsLogs : Outcome
  ExecuteCleanups : Outcome

/-- The state of a test case: its context and the calls made so far. -/
structure Run where
  ctx : TestContext
  trace : List Call
deriving DecidableEq, Repr

/-- Make a call: record it and end the way the collaborator does. -/
def call (name : Call) (o : Outcome) (s : Run) : Outcome × Run :=
  (o, { s with trace := s.trace ++ [name] })

/-- The function `deployRegistryStorage(suiteCtx, ctx)`; the last branch is
`Expect(errors.New("Storage not implemented")).ToNot(HaveOccurred())`, which fails. -/
def deployRegistryStorage (k : Collaborators) (s : Run) : Outcome × Run :=
  if s.ctx.Storage = StorageJpa then
    call (Call.deploy Variant.jpa) (k.deploy Variant.jpa) s
  else if s.ctx.Storage = StorageStreams then
    call (Call.deploy Variant.streams) (k.deploy Variant.streams) s
  else if s.ctx.Storage = StorageInfinispan then
    call (Call.deploy Variant.infinispan) (k.deploy Variant.infinispan) s
  else
    (Outcome.failed "Storage not implemented", s)

/-- The result of `cleanRegistryDeployment`: it is aborted, or it returns an `error` value
(`none` is `nil`). -/
inductive CleanResult where
  | aborted (msg : String)
  | returns (err : Option String)
deriving DecidableEq, Repr

/-- The dispatch at the end of `cleanRegistryDeployment`, reached when nothing before it
aborted. -/
def removeRegistryStorage (k : Collaborators) (s : Run) : CleanResult × Run :=
  let finish (r : Outcome × Run) : CleanResult × Run :=
    match r.1 with
    | Outcome.returned => (CleanResult.returns none, r.2)
    | Outcome.failed m => (CleanResult.aborted m, r.2)
  if s.ctx.Storage = StorageJpa then
    finish (call (Call.remove Variant.jpa) (k.remove Variant.jpa) s)
  else if s.ctx.Storage = StorageStreams then
    finish (call (Call.remove Variant.streams) (k.remove Variant.streams) s)
  else if s.ctx.Storage = StorageInfinispan then
    finish (call (Call.remove Variant.infinispan) (k.remove Variant.infinispan) s)
  else
    (CleanResult.returns (some "Storage not implemented"), s)

/-- The function `cleanRegistryDeployment(suiteCtx, ctx)`: the separator, the clientset and
the `Expect` that it is not nil, the log capture, the registered cleanups, the dispatch. -/
def cleanRegistryDeployment (k : Collaborators) (s : Run) : CleanResult × Run :=
  let s := (call (Call.info "-----------------------------------------------------------")
    Outcome.returned s).2
  let s := { s with trace := s.trace ++ [Call.NewForConfigOrDie] }
  match k.NewForConfigOrDie with
  | none => (CleanResult.aborted "NewForConfigOrDie", s)
  | some true => (CleanResult.aborted "Expected clientset not to be nil", s)
  | some false =>
    match call Call.SaveTestPodsLogs k.SaveTestPodsLogs s with
    | (Outcome.failed m, s) => (CleanResult.aborted m, s)
    | (Outcome.returned, s) =>
      match call Call.ExecuteCleanups k.ExecuteCleanups s with
      | (Outcome.failed m, s) => (CleanResult.aborted m, s)
      | (Outcome.returned, s) => removeRegistryStorage k s

/-- The statements of `executeTestOnStorage` after the `defer`: deploy, log a separator, run
the test function. -/
def deployAndTest (k : Collaborators) (testFunction : Outcome) (s : Run) : Outcome × Run :=
  andThen (deployRegistryStorage k s) fun s =>
  andThen (call (Call.info "-----------------------------------------------------------")
    Outcome.returned s) fun s =>
  call Call.testFunction testFunction s

/-- The first statement of `executeTestOnStorage`: an empty `ID` becomes the storage tag. -/
def defaultID (testContext : TestContext) : TestContext :=
  if testContext.ID = "" then { testContext with ID := testContext.Storage }
  else testContext

/-- The function `executeTestOnStorage(suiteCtx, testContext, testFunction)`.  The deferred
`cleanRegistryDeployment` runs when the function body returns and when it panics; the error
it returns is dropped; when it panics itself the test case ends with that panic. -/
def executeTestOnStorage (k : Collaborators) (testContext : TestContext)
    (testFunction : Outcome) : Outcome × Run :=
  let testContext := defaultID testContext
  let body := deployAndTest k testFunction { ctx := testContext, trace := [] }
  match cleanRegistryDeployment k body.2 with
  | (CleanResult.aborted m, s) => (Outcome.failed m, s)
  | (CleanResult.returns _, s) => (body.1, s)

/-! ## Reading a trace -/

/-- The deploy, test-function and remove calls of a trace, in order. -/
def lifecycle (trace : List Call) : List Call :=
  trace.filter fun c =>
    match c with
    | Call.deploy _ => true
    | Call.testFunction => true
    | Call.remove _ => true
    | _ => false

/-- The three teardown steps of a trace, in order: log capture, registered cleanups,
storage removal. -/
def teardownSteps (trace : List Call) : List Call :=
  trace.filter fun c =>
    match c with
    | Call.SaveTestPodsLogs => true
    | Call.ExecuteCleanups => true
    | Call.remove _ => true
    | _ => false

/-- The remove call the dispatch of `cleanRegistryDeployment` makes for a storage tag. -/
def removeCalls (storage : String) : List Call :=
  if storage = StorageJpa then [Call.remove Variant.jpa]
  else if storage = StorageStreams then [Call.remove Variant.streams]
  else if storage = StorageInfinispan then [Call.remove Variant.infinispan]
  else []

/-- The calls one run of `cleanRegistryDeployment` makes, see
`cleanRegistryDeployment_trace`. -/
def teardownCalls (k : Collaborators) (storage : String) : List Call :=
  [Call.info "-----------------------------------------------------------",
    Call.NewForConfigOrDie]
  ++ (if k.NewForConfigOrDie = some false then
        Call.SaveTestPodsLogs ::
          (if k.SaveTestPodsLogs = Outcome.returned then
            Call.ExecuteCleanups ::
              (if k.ExecuteCleanups = Outcome.returned then removeCalls storage else [])
           else [])
      else [])

/-! ## Example runs -/

/-- A run in which only the log capture aborts. -/
def logCaptureFails : Collaborators :=
  { deploy := fun _ => Outcome.returned, remove := fun _ => Outcome.returned,
    NewForConfigOrDie := some false, SaveTestPodsLogs := Outcome.failed "pods list",
    ExecuteCleanups := Outcome.returned }

/-- A run in which every collaborator returns. -/
def allReturn : Collaborators :=
  { deploy := fun _ => Outcome.returned, remove := fun _ => Outcome.returned,
    NewForConfigOrDie := some false, SaveTestPodsLogs := Outcome.returned,
    ExecuteCleanups := Outcome.returned }

end Testcase

namespace Logs

/-! ## Theorems on the log collector -/

theorem appendFile_putFile (path content out : String) (fs : List (String × String)) :
    appendFile path out (putFile path content fs) = putFile path (content ++ out) fs := by
  unfold appendFile putFile
  simp only [List.map_cons, if_true]
  congr 1
  conv_rhs => rw [← List.map_id (List.filter _ fs)]
  apply List.map_congr_left
  intro f hf
  have hne : f.1 ≠ path := by simpa using (List.mem_filter.mp hf).2
  simp [hne]

theorem putAll_append (ps qs : List (String × String)) (fs : List (String × String)) :
    putAll (ps ++ qs) fs = putAll qs (putAll ps fs) := by
  simp [putAll, List.foldl_append]

theorem mkdirs_append (ds es : List String) (dirs : List String) :
    mkdirs (ds ++ es) dirs = mkdirs es (mkdirs ds dirs) := by
  simp [mkdirs, List.foldl_append]

theorem mem_putAll (ps : List (String × String)) (fs : List (String × String))
    (f : String × String) (h : f ∈ putAll ps fs) : f.1 ∈ ps.map Prod.fst ∨ f ∈ fs := by
  induction ps generalizing fs with
  | nil => exact Or.inr h
  | cons p ps ih =>
    rcases ih (putFile p.1 p.2 fs) h with h1 | h1
    · exact Or.inl (List.mem_cons_of_mem _ h1)
    · unfold putFile at h1
      rcases List.mem_cons.mp h1 with h2 | h2
      · exact Or.inl (by rw [h2]; simp)
      · exact Or.inr (List.mem_filter.mp h2).1

theorem putAll_eq (ps : List (String × String)) (fs : List (String × String)) :
    putAll ps fs
      = putAll ps [] ++ fs.filter (fun f => decide (f.1 ∉ ps.map Prod.fst)) := by
  induction ps generalizing fs with
  | nil => simp [putAll]
  | cons p ps ih =>
    have h1 := ih (putFile p.1 p.2 fs)
    have h2 := ih (putFile p.1 p.2 [])
    have e1 : putAll (p :: ps) fs = putAll ps (putFile p.1 p.2 fs) := rfl
    have e2 : putAll (p :: ps) [] = putAll ps (putFile p.1 p.2 []) := rfl
    have hf : List.filter (fun f => decide (f.1 ∉ ps.map Prod.fst))
          (List.filter (fun f => decide (f.1 ≠ p.1)) fs)
        = List.filter (fun f => decide (f.1 ∉ (p :: ps).map Prod.fst)) fs := by
      rw [List.filter_filter]
      apply List.filter_congr
      intro x _
      by_cases hx1 : x.1 = p.1 <;> by_cases hx2 : x.1 ∈ ps.map Prod.fst <;>
        simp [hx1, hx2]
    rw [e1, e2, h1, h2]
    by_cases hp : p.1 ∈ ps.map Prod.fst
    · simp only [putFile, List.filter_nil, List.filter_cons, hp, not_true_eq_false,
        decide_False, Bool.false_eq_true, if_false, List.append_nil, hf]
    · simp only [putFile, List.filter_nil, List.filter_cons, hp, not_false_eq_true,
        decide_True, if_true, List.append_assoc, List.cons_append, List.nil_append, hf]

theorem putAll_idem (ps : List (String × String)) (fs : List (String × String)) :
    putAll ps (putAll ps fs) = putAll ps fs := by
  rw [putAll_eq ps (putAll ps fs), putAll_eq ps fs]
  congr 1
  rw [List.filter_append]
  have h1 : List.filter (fun f => decide (f.1 ∉ ps.map Prod.fst)) (putAll ps []) = [] := by
    rw [List.filter_eq_nil_iff]
    intro f hf
    rcases mem_putAll ps [] f hf with h | h
    · simp [h]
    · simp at h
  rw [h1, List.filter_filter]
  simp

theorem mem_mkdirs_of_mem (ds : List String) (dirs : List String) (d : String)
    (h : d ∈ dirs) : d ∈ mkdirs ds dirs := by
  induction ds generalizing dirs with
  | nil => exact h
  | cons x xs ih =>
    apply ih
    show d ∈ (if x ∈ dirs then dirs else dirs ++ [x])
    split_ifs
    · exact h
    · exact List.mem_append_left _ h

theorem mkdirs_of_subset (ds : List String) (dirs : List String)
    (h : ∀ d ∈ ds, d ∈ dirs) : mkdirs ds dirs = dirs := by
  induction ds with
  | nil => rfl
  | cons x xs ih =>
    have hx : x ∈ dirs := h x (List.mem_cons_self _ _)
    have e : mkdirs (x :: xs) dirs = mkdirs xs (if x ∈ dirs then dirs else dirs ++ [x]) := rfl
    rw [e, if_pos hx]
    exact ih fun d hd => h d (List.mem_cons_of_mem _ hd)

theorem mem_mkdirs_self (ds : List String) (dirs : List String) (d : String) (h : d ∈ ds) :
    d ∈ mkdirs ds dirs := by
  induction ds generalizing dirs with
  | nil => simp at h
  | cons x xs ih =>
    have e : mkdirs (x :: xs) dirs = mkdirs xs (if x ∈ dirs then dirs else dirs ++ [x]) := rfl
    rw [e]
    rcases List.mem_cons.mp h with h1 | h1
    · apply mem_mkdirs_of_mem
      subst h1
      split_ifs with hd
      · exact hd
      · simp
    · exact ih _ h1

theorem mkdirs_idem (ds : List String) (dirs : List String) :
    mkdirs ds (mkdirs ds dirs) = mkdirs ds dirs :=
  mkdirs_of_subset ds _ fun d hd => mem_mkdirs_self ds dirs d hd

theorem Effect.apply_apply (e₁ e₂ : Effect) (w : World) :
    Effect.apply e₂ (Effect.apply e₁ w) = Effect.apply (Effect.append e₁ e₂) w := by
  simp [Effect.apply, Effect.append, putAll_append, mkdirs_append]

theorem Effect.apply_twice_files (e : Effect) (w : World) :
    (Effect.apply e (Effect.apply e w)).files = (Effect.apply e w).files
    ∧ (Effect.apply e (Effect.apply e w)).dirs = (Effect.apply e w).dirs := by
  simp [Effect.apply, putAll_idem, mkdirs_idem]

theorem uniform_const (o : Outcome) : Uniform fun w => (o, w) :=
  ⟨o, { puts := [], dirs := [], infos := [] }, fun w => by
    simp [Effect.apply, putAll, mkdirs]⟩

theorem uniform_logInfo (msg : String) (kvs : List String) :
    Uniform fun w => (Outcome.returned, logInfo msg kvs w) :=
  ⟨Outcome.returned, { puts := [], dirs := [], infos := [{ msg := msg, keysAndValues := kvs }] },
    fun w => by simp [Effect.apply, putAll, mkdirs, logInfo]⟩

theorem uniform_MkdirAll (dir : String) :
    Uniform fun w => (Outcome.returned, MkdirAll dir w) :=
  ⟨Outcome.returned, { puts := [], dirs := [dir], infos := [] },
    fun w => by simp [Effect.apply, putAll, mkdirs, MkdirAll]⟩

theorem uniform_put (path content : String) :
    Uniform fun w => (Outcome.returned,
      { w with files := putFile path content w.files, written := w.written ++ [path] }) :=
  ⟨Outcome.returned, { puts := [(path, content)], dirs := [], infos := [] },
    fun w => by simp [Effect.apply, putAll, mkdirs]⟩

theorem uniform_andThen {f g : World → Outcome × World} (hf : Uniform f) (hg : Uniform g) :
    Uniform fun w => andThen (f w) g := by
  obtain ⟨o₁, e₁, h₁⟩ := hf
  obtain ⟨o₂, e₂, h₂⟩ := hg
  cases o₁ with
  | returned =>
    exact ⟨o₂, Effect.append e₁ e₂, fun w => by
      simp [h₁, h₂, andThen, Effect.apply_apply]⟩
  | failed m => exact ⟨Outcome.failed m, e₁, fun w => by simp [h₁, andThen]⟩

theorem uniform_after {f : World → Outcome × World} {g : World → World}
    (hg : Uniform fun w => (Outcome.returned, g w)) (hf : Uniform f) :
    Uniform fun w => f (g w) :=
  uniform_andThen hg hf

theorem uniform_WriteFile (c : Cluster) (path content : String) :
    Uniform (WriteFile c path content) := by
  unfold WriteFile
  split_ifs
  · exact uniform_const _
  · exact uniform_put path content

theorem createPodsLogFile_eq (c : Cluster) (logsDir ns : String) (w : World) :
    createPodsLogFile c logsDir ns w
      = if c.createFails (logsDir ++ "pods.log") then
          (Outcome.failed ("create " ++ (logsDir ++ "pods.log")), w)
        else (Outcome.returned,
          { w with
            files := putFile (logsDir ++ "pods.log")
              ("" ++ c.kubectl ["get", "pods", "-n", ns]
                ++ c.kubectl ["get", "pods", "-n", ns, "-o", "yaml"]) w.files
            written := w.written ++ [logsDir ++ "pods.log"] }) := by
  unfold createPodsLogFile osCreate
  split_ifs <;> simp [andThen, RedirectOutput, appendFile_putFile]

theorem createEventsLogFile_eq (c : Cluster) (logsDir ns : String) (w : World) :
    createEventsLogFile c logsDir ns w
      = if c.createFails (logsDir ++ "events.log") then
          (Outcome.failed ("create " ++ (logsDir ++ "events.log")), w)
        else (Outcome.returned,
          { w with
            files := putFile (logsDir ++ "events.log")
              ("" ++ c.kubectl ["get", "events", "-n", ns,
                "--sort-by=\"\x7b.metadata.creationTimestamp\x7d\""]) w.files
            written := w.written ++ [logsDir ++ "events.log"] }) := by
  unfold createEventsLogFile osCreate
  split_ifs <;> simp [andThen, RedirectOutput, appendFile_putFile]

theorem createNodesLogFile_eq (c : Cluster) (logsDir : String) (w : World) :
    createNodesLogFile c logsDir w
      = if c.createFails (logsDir ++ "nodes.log") then
          (Outcome.failed ("create " ++ (logsDir ++ "nodes.log")), w)
        else (Outcome.returned,
          { w with
            files := putFile (logsDir ++ "nodes.log")
              ("" ++ c.kubectl ["describe", "nodes"]) w.files
            written := w.written ++ [logsDir ++ "nodes.log"] }) := by
  unfold createNodesLogFile osCreate
  split_ifs <;> simp [andThen, RedirectOutput, appendFile_putFile]

theorem uniform_createStatusFiles (c : Cluster) (logsDir ns : String) :
    Uniform (createStatusFiles c logsDir ns) := by
  unfold createStatusFiles
  refine uniform_andThen ?_ (uniform_andThen ?_ ?_)
  · show Uniform fun w => createPodsLogFile c logsDir ns w
    simp only [createPodsLogFile_eq]
    split_ifs
    · exact uniform_const _
    · exact uniform_put _ _
  · show Uniform fun w => createEventsLogFile c logsDir ns w
    simp only [createEventsLogFile_eq]
    split_ifs
    · exact uniform_const _
    · exact uniform_put _ _
  · show Uniform fun w => createNodesLogFile c logsDir w
    simp only [createNodesLogFile_eq]
    split_ifs
    · exact uniform_const _
    · exact uniform_put _ _

theorem uniform_saveContainerLogs (c : Cluster) (logsDir container : String) (pod : Pod) :
    Uniform (saveContainerLogs c logsDir container pod) := by
  unfold saveContainerLogs
  cases h : c.getLogs pod.Namespace pod.Name container with
  | error e => exact uniform_const _
  | ok containerLogs =>
    cases hc : containerLogs.copy with
    | error e => simpa only [hc] using uniform_const (Outcome.failed e)
    | ok buf =>
      simpa only [hc] using uniform_after (uniform_logInfo _ _) (uniform_WriteFile c _ buf)

theorem uniform_saveContainers (c : Cluster) (logsDir : String) (pod : Pod)
    (cs : List ContainerStatus) : Uniform (saveContainers c logsDir pod cs) := by
  induction cs with
  | nil => exact uniform_const _
  | cons container rest ih =>
    exact uniform_andThen (uniform_saveContainerLogs c logsDir container.Name pod) ih

theorem uniform_savePods (c : Cluster) (logsDir : String) (pods : List Pod) :
    Uniform (savePods c logsDir pods) := by
  induction pods with
  | nil => exact uniform_const _
  | cons pod rest ih =>
    show Uniform fun w => savePods c logsDir (pod :: rest) w
    unfold savePods
    split_ifs
    · exact uniform_after (uniform_logInfo _ _) ih
    · exact uniform_andThen (uniform_saveContainers c logsDir pod _) ih

theorem uniform_SaveTestPodsLogs (c : Cluster) (suiteID ns testName : String) :
    Uniform (SaveTestPodsLogs c suiteID ns testName) := by
  unfold SaveTestPodsLogs
  cases h : c.listPods ns [] with
  | error e => exact uniform_after (uniform_logInfo _ _) (uniform_const (Outcome.failed e))
  | ok pods =>
    exact uniform_after (uniform_logInfo _ _)
      (uniform_after (uniform_MkdirAll _)
        (uniform_andThen (uniform_createStatusFiles c _ ns) (uniform_savePods c _ pods)))

/-- C7: log collection is idempotent on the file system.  For every suite id, test name
and namespace, in a fixed cluster state and from every world, a second run of
`SaveTestPodsLogs` writes the files the first run wrote, leaves exactly the files (paths
and contents) and directories the first run left, and ends the way the first run did: it
overwrites and adds no file. -/
theorem SaveTestPodsLogs_idempotent (c : Cluster) (suiteID ns testName : String)
    (w : World) :
    (SaveTestPodsLogs c suiteID ns testName
        (SaveTestPodsLogs c suiteID ns testName w).2).2.files
      = (SaveTestPodsLogs c suiteID ns testName w).2.files
    ∧ (SaveTestPodsLogs c suiteID ns testName
        (SaveTestPodsLogs c suiteID ns testName w).2).2.dirs
      = (SaveTestPodsLogs c suiteID ns testName w).2.dirs
    ∧ (SaveTestPodsLogs c suiteID ns testName
        (SaveTestPodsLogs c suiteID ns testName w).2).1
      = (SaveTestPodsLogs c suiteID ns testName w).1
    ∧ ∃ ps, (SaveTestPodsLogs c suiteID ns testName w).2.written = w.written ++ ps
        ∧ (SaveTestPodsLogs c suiteID ns testName
            (SaveTestPodsLogs c suiteID ns testName w).2).2.written
          = (SaveTestPodsLogs c suiteID ns testName w).2.written ++ ps := by
  obtain ⟨o, e, h⟩ := uniform_SaveTestPodsLogs c suiteID ns testName
  have h2 := Effect.apply_twice_files e w
  simp only [h]
  exact ⟨h2.1, h2.2, trivial, e.puts.map Prod.fst, rfl, rfl⟩

theorem andThen_fst_returned {σ : Type} {r : Outcome × σ} {k : σ → Outcome × σ}
    (h : (andThen r k).1 = Outcome.returned) :
    r.1 = Outcome.returned ∧ andThen r k = k r.2 := by
  obtain ⟨o, w⟩ := r
  cases o with
  | returned => exact ⟨rfl, rfl⟩
  | failed m => simp [andThen] at h

theorem andThen_of_returned {σ : Type} {r : Outcome × σ} (k : σ → Outcome × σ)
    (h : r.1 = Outcome.returned) : andThen r k = k r.2 := by
  obtain ⟨o, w⟩ := r
  cases o with
  | returned => rfl
  | failed m => simp at h

theorem WriteFile_written (c : Cluster) (path content : String) (w : World)
    (h : (WriteFile c path content w).1 = Outcome.returned) :
    (WriteFile c path content w).2.written = w.written ++ [path]
    ∧ (WriteFile c path content w).2.infos = w.infos := by
  unfold WriteFile at h ⊢
  split_ifs at h ⊢
  exact ⟨rfl, rfl⟩

theorem createStatusFiles_written (c : Cluster) (logsDir ns : String) (w : World)
    (h : (createStatusFiles c logsDir ns w).1 = Outcome.returned) :
    (createStatusFiles c logsDir ns w).2.written = w.written ++ statusFiles logsDir
    ∧ (createStatusFiles c logsDir ns w).2.infos = w.infos
    ∧ c.createFails (logsDir ++ "pods.log") = false
    ∧ c.createFails (logsDir ++ "events.log") = false
    ∧ c.createFails (logsDir ++ "nodes.log") = false := by
  unfold createStatusFiles at h ⊢
  simp only [createPodsLogFile_eq, createEventsLogFile_eq, createNodesLogFile_eq] at h ⊢
  cases h1 : c.createFails (logsDir ++ "pods.log") <;>
    cases h2 : c.createFails (logsDir ++ "events.log") <;>
    cases h3 : c.createFails (logsDir ++ "nodes.log") <;>
    simp [h1, h2, h3, andThen, statusFiles] at h ⊢

theorem createStatusFiles_ok (c : Cluster) (logsDir ns : String) (w : World)
    (h1 : c.createFails (logsDir ++ "pods.log") = false)
    (h2 : c.createFails (logsDir ++ "events.log") = false)
    (h3 : c.createFails (logsDir ++ "nodes.log") = false) :
    (createStatusFiles c logsDir ns w).1 = Outcome.returned := by
  unfold createStatusFiles
  simp [createPodsLogFile_eq, createEventsLogFile_eq, createNodesLogFile_eq, h1, h2, h3,
    andThen]

theorem saveContainerLogs_written (c : Cluster) (logsDir container : String) (pod : Pod)
    (w : World) (h : (saveContainerLogs c logsDir container pod w).1 = Outcome.returned) :
    (saveContainerLogs c logsDir container pod w).2.written
      = w.written ++ [logsDir ++ pod.Name ++ "-" ++ container ++ ".log"] := by
  unfold saveContainerLogs at h ⊢
  cases hg : c.getLogs pod.Namespace pod.Name container with
  | error e => simp [hg] at h
  | ok containerLogs =>
    cases hc : containerLogs.copy with
    | error e => simp [hg, hc] at h
    | ok buf =>
      simp only [hg, hc] at h ⊢
      exact (WriteFile_written c _ buf _ h).1

theorem saveContainers_written (c : Cluster) (logsDir : String) (pod : Pod)
    (cs : List ContainerStatus) (w : World)
    (h : (saveContainers c logsDir pod cs w).1 = Outcome.returned) :
    (saveContainers c logsDir pod cs w).2.written
      = w.written ++ cs.map fun container =>
          logsDir ++ pod.Name ++ "-" ++ container.Name ++ ".log" := by
  induction cs generalizing w with
  | nil => simp [saveContainers]
  | cons container rest ih =>
    simp only [saveContainers] at h ⊢
    obtain ⟨h1, h2⟩ := andThen_fst_returned h
    rw [h2] at h ⊢
    rw [ih _ h, saveContainerLogs_written c logsDir container.Name pod w h1]
    simp

theorem savePods_written (c : Cluster) (logsDir : String) (pods : List Pod) (w : World)
    (h : (savePods c logsDir pods w).1 = Outcome.returned) :
    (savePods c logsDir pods w).2.written = w.written ++ podLogFiles logsDir pods := by
  induction pods generalizing w with
  | nil => simp [savePods, podLogFiles]
  | cons pod rest ih =>
    simp only [savePods] at h ⊢
    split_ifs at h ⊢ with hphase
    · rw [ih _ h]
      simp [podLogFiles, List.filter_cons, hphase, logInfo]
    · obtain ⟨h1, h2⟩ := andThen_fst_returned h
      rw [h2] at h ⊢
      rw [ih _ h, saveContainers_written c logsDir pod _ w h1]
      have hrun : pod.Phase = PodPhase.Running := by simpa using hphase
      simp [podLogFiles, List.filter_cons, hrun]

theorem SaveTestPodsLogs_written (c : Cluster) (suiteID ns testName : String)
    (pods : List Pod) (w : World) (hpods : c.listPods ns [] = Except.ok pods)
    (h : (SaveTestPodsLogs c suiteID ns testName w).1 = Outcome.returned) :
    (SaveTestPodsLogs c suiteID ns testName w).2.written
      = w.written ++ (statusFiles (logsDirOf c.SuiteProjectDir suiteID testName ns)
          ++ podLogFiles (logsDirOf c.SuiteProjectDir suiteID testName ns) pods) := by
  unfold SaveTestPodsLogs at h ⊢
  simp only [hpods] at h ⊢
  obtain ⟨h1, h2⟩ := andThen_fst_returned h
  rw [h2] at h ⊢
  rw [savePods_written c _ pods _ h, (createStatusFiles_written c _ ns _ h1).1]
  simp [logsDirOf, MkdirAll, logInfo]

theorem mem_putAll_self (ps : List (String × String)) (fs : List (String × String))
    (p : String) (h : p ∈ ps.map Prod.fst) : p ∈ (putAll ps fs).map Prod.fst := by
  induction ps generalizing fs with
  | nil => simp at h
  | cons q qs ih =>
    have e : putAll (q :: qs) fs = putAll qs (putFile q.1 q.2 fs) := rfl
    rw [e]
    by_cases hq : p ∈ qs.map Prod.fst
    · exact ih _ hq
    · have hpq : p = q.1 := by
        rw [List.map_cons] at h
        rcases List.mem_cons.mp h with h1 | h1
        · exact h1
        · exact absurd h1 hq
      rw [putAll_eq]
      apply List.mem_map.mpr
      refine ⟨(q.1, q.2), List.mem_append_right _ (List.mem_filter.mpr ⟨?_, ?_⟩), hpq.symm⟩
      · simp [putFile]
      · simpa [hpq] using hq

/-- Every file a run has written is in the file system it leaves. -/
theorem written_present {f : World → Outcome × World} (hf : Uniform f) (w : World)
    (ps : List String) (hw : (f w).2.written = w.written ++ ps) :
    ∀ p ∈ ps, p ∈ (f w).2.files.map Prod.fst := by
  obtain ⟨o, e, h⟩ := hf
  rw [h] at hw ⊢
  have hps : e.puts.map Prod.fst = ps := List.append_cancel_left hw
  intro p hp
  exact mem_putAll_self e.puts w.files p (hps ▸ hp)

theorem writesWithin_const (o : Outcome) (E : List String) :
    WritesWithin (fun w => (o, w)) E :=
  fun w => ⟨0, by simp⟩

theorem writesWithin_after {f : World → Outcome × World} {g : World → World}
    {E : List String} (hg : ∀ w, (g w).written = w.written) (hf : WritesWithin f E) :
    WritesWithin (fun w => f (g w)) E := by
  intro w
  obtain ⟨n, hn⟩ := hf (g w)
  exact ⟨n, by rw [hn, hg]⟩

theorem writesWithin_andThen {f g : World → Outcome × World} {E F : List String}
    (hf : WritesWithin f E)
    (hfr : ∀ w, (f w).1 = Outcome.returned → (f w).2.written = w.written ++ E)
    (hg : WritesWithin g F) :
    WritesWithin (fun w => andThen (f w) g) (E ++ F) := by
  intro w
  cases h : (f w).1 with
  | returned =>
    obtain ⟨m, hm⟩ := hg (f w).2
    refine ⟨E.length + m, ?_⟩
    have e : andThen (f w) g = g (f w).2 := by simp [andThen, h]
    simp only [e]
    rw [hm, hfr w h, List.take_append, List.append_assoc]
  | failed msg =>
    obtain ⟨n, hn⟩ := hf w
    have e : andThen (f w) g = (Outcome.failed msg, (f w).2) := by simp [andThen, h]
    simp only [e]
    rw [hn]
    by_cases hle : n ≤ E.length
    · exact ⟨n, by rw [List.take_append_of_le_length hle]⟩
    · refine ⟨E.length, ?_⟩
      rw [List.take_append_of_le_length (le_refl _), List.take_length,
        List.take_of_length_le (by omega)]

theorem writesWithin_WriteFile (c : Cluster) (path content : String) :
    WritesWithin (WriteFile c path content) [path] := by
  intro w
  unfold WriteFile
  split_ifs
  · exact ⟨0, by simp⟩
  · exact ⟨1, by simp⟩

theorem writesWithin_createStatusFiles (c : Cluster) (logsDir ns : String) :
    WritesWithin (createStatusFiles c logsDir ns) (statusFiles logsDir) := by
  intro w
  unfold createStatusFiles
  simp only [createPodsLogFile_eq, createEventsLogFile_eq, createNodesLogFile_eq]
  cases h1 : c.createFails (logsDir ++ "pods.log")
  · cases h2 : c.createFails (logsDir ++ "events.log")
    · cases h3 : c.createFails (logsDir ++ "nodes.log")
      · exact ⟨3, by simp [andThen, statusFiles, h1, h2, h3]⟩
      · exact ⟨2, by simp [andThen, statusFiles, h1, h2, h3]⟩
    · exact ⟨1, by simp [andThen, statusFiles, h1, h2]⟩
  · exact ⟨0, by simp [andThen, statusFiles, h1]⟩

theorem writesWithin_saveContainerLogs (c : Cluster) (logsDir container : String)
    (pod : Pod) :
    WritesWithin (saveContainerLogs c logsDir container pod)
      [logsDir ++ pod.Name ++ "-" ++ container ++ ".log"] := by
  unfold saveContainerLogs
  cases hg : c.getLogs pod.Namespace pod.Name container with
  | error e => exact writesWithin_const _ _
  | ok containerLogs =>
    cases hc : containerLogs.copy with
    | error e => simpa only [hc] using writesWithin_const (Outcome.failed e) _
    | ok buf =>
      simpa only [hc] using writesWithin_after (g := logInfo _ _) (fun _ => rfl)
        (writesWithin_WriteFile c _ buf)

theorem writesWithin_saveContainers (c : Cluster) (logsDir : String) (pod : Pod)
    (cs : List ContainerStatus) :
    WritesWithin (saveContainers c logsDir pod cs)
      (cs.map fun container => logsDir ++ pod.Name ++ "-" ++ container.Name ++ ".log") := by
  induction cs with
  | nil => exact writesWithin_const _ _
  | cons container rest ih =>
    exact writesWithin_andThen (writesWithin_saveContainerLogs c logsDir container.Name pod)
      (saveContainerLogs_written c logsDir container.Name pod) ih

theorem writesWithin_savePods (c : Cluster) (logsDir : String) (pods : List Pod) :
    WritesWithin (savePods c logsDir pods) (podLogFiles logsDir pods) := by
  induction pods with
  | nil => exact writesWithin_const _ _
  | cons pod rest ih =>
    show WritesWithin (fun w => savePods c logsDir (pod :: rest) w) _
    unfold savePods
    split_ifs with hphase
    · have e : podLogFiles logsDir (pod :: rest) = podLogFiles logsDir rest := by
        simp [podLogFiles, List.filter_cons, hphase]
      rw [e]
      exact writesWithin_after (g := logInfo _ _) (fun _ => rfl) ih
    · have hrun : pod.Phase = PodPhase.Running := by simpa using hphase
      have e : podLogFiles logsDir (pod :: rest)
          = (pod.ContainerStatuses.map fun container =>
              logsDir ++ pod.Name ++ "-" ++ container.Name ++ ".log")
            ++ podLogFiles logsDir rest := by
        simp [podLogFiles, List.filter_cons, hrun]
      rw [e]
      exact writesWithin_andThen (writesWithin_saveContainers c logsDir pod _)
        (saveContainers_written c logsDir pod _) ih

theorem writesWithin_SaveTestPodsLogs (c : Cluster) (suiteID ns testName : String)
    (pods : List Pod) (hpods : c.listPods ns [] = Except.ok pods) :
    WritesWithin (SaveTestPodsLogs c suiteID ns testName)
      (statusFiles (logsDirOf c.SuiteProjectDir suiteID testName ns)
        ++ podLogFiles (logsDirOf c.SuiteProjectDir suiteID testName ns) pods) := by
  unfold SaveTestPodsLogs
  simp only [hpods]
  exact writesWithin_after (g := logInfo _ _) (fun _ => rfl)
    (writesWithin_after (g := MkdirAll _) (fun _ => rfl)
      (writesWithin_andThen (writesWithin_createStatusFiles c _ ns)
        (fun w h => (createStatusFiles_written c _ ns w h).1) (writesWithin_savePods c _ pods)))

/-- A run of `SaveTestPodsLogs` in which no cluster or file-system call fails returns. -/
theorem SaveTestPodsLogs_returns (c : Cluster) (suiteID ns testName : String)
    (pods : List Pod) (w : World) (hpods : c.listPods ns [] = Except.ok pods)
    (hcreate : ∀ p, c.createFails p = false) (hwrite : ∀ p, c.writeFileFails p = false)
    (hlogs : ∀ n p k, ∃ buf, c.getLogs n p k = Except.ok { copy := Except.ok buf }) :
    (SaveTestPodsLogs c suiteID ns testName w).1 = Outcome.returned := by
  have hcontainer : ∀ logsDir container pod w,
      (saveContainerLogs c logsDir container pod w).1 = Outcome.returned := by
    intro logsDir container pod w
    obtain ⟨buf, h⟩ := hlogs pod.Namespace pod.Name container
    simp [saveContainerLogs, h, WriteFile, hwrite]
  have hcontainers : ∀ logsDir pod cs w,
      (saveContainers c logsDir pod cs w).1 = Outcome.returned := by
    intro logsDir pod cs
    induction cs with
    | nil => intro w; rfl
    | cons container rest ih =>
      intro w
      simp only [saveContainers]
      rw [andThen_of_returned _ (hcontainer _ _ _ _)]
      exact ih _
  have hsave : ∀ logsDir (ps : List Pod) w,
      (savePods c logsDir ps w).1 = Outcome.returned := by
    intro logsDir ps
    induction ps with
    | nil => intro w; rfl
    | cons pod rest ih =>
      intro w
      simp only [savePods]
      split_ifs
      · exact ih _
      · rw [andThen_of_returned _ (hcontainers _ _ _ _)]
        exact ih _
  unfold SaveTestPodsLogs
  simp only [hpods]
  rw [andThen_of_returned _ (createStatusFiles_ok c _ ns _ (hcreate _) (hcreate _) (hcreate _))]
  exact hsave _ _ _

/-- C5: for every suite id, test name, namespace and pod list, the files
`SaveTestPodsLogs` writes are `<project>/tests-logs/<suiteID>/<testName>/namespaces/<namespace>/`
followed by `pods.log`, `events.log`, `nodes.log` and `<podName>-<container>.log` for each
container status of each pod whose phase is Running, and no file for any other pod.  A run
that returns has written exactly these, in this order, and they are in the file system it
leaves; a run that an assertion aborts has written the first of them and nothing else. -/
theorem SaveTestPodsLogs_files (c : Cluster) (suiteID testName ns : String)
    (pods : List Pod) (w : World) (hpods : c.listPods ns [] = Except.ok pods) :
    (∃ n, (SaveTestPodsLogs c suiteID ns testName w).2.written
        = w.written
          ++ (statusFiles (logsDirOf c.SuiteProjectDir suiteID testName ns)
              ++ podLogFiles (logsDirOf c.SuiteProjectDir suiteID testName ns) pods).take n)
    ∧ ((SaveTestPodsLogs c suiteID ns testName w).1 = Outcome.returned →
        (SaveTestPodsLogs c suiteID ns testName w).2.written
          = w.written
            ++ (statusFiles (logsDirOf c.SuiteProjectDir suiteID testName ns)
                ++ podLogFiles (logsDirOf c.SuiteProjectDir suiteID testName ns) pods)
        ∧ ∀ p ∈ statusFiles (logsDirOf c.SuiteProjectDir suiteID testName ns)
                ++ podLogFiles (logsDirOf c.SuiteProjectDir suiteID testName ns) pods,
            p ∈ (SaveTestPodsLogs c suiteID ns testName w).2.files.map Prod.fst) := by
  refine ⟨writesWithin_SaveTestPodsLogs c suiteID ns testName pods hpods w, fun hret => ?_⟩
  have hw := SaveTestPodsLogs_written c suiteID ns testName pods w hpods hret
  exact ⟨hw, written_present (uniform_SaveTestPodsLogs c suiteID ns testName) w _ hw⟩

/-- C5, witness: the example of the specification.  Namespace `ns1` with `pod-a` (running,
containers `c1`, `c2`) and `pod-b` (pending) gives `pods.log`, `events.log`, `nodes.log`,
`pod-a-c1.log` and `pod-a-c2.log`; `pod-b` gives no file. -/
theorem SaveTestPodsLogs_files_witness :
    (SaveTestPodsLogs exampleCluster "suite1" "ns1" "registry-jpa" emptyWorld).2.written
      = ["/project/tests-logs/suite1/registry-jpa/namespaces/ns1/pods.log",
         "/project/tests-logs/suite1/registry-jpa/namespaces/ns1/events.log",
         "/project/tests-logs/suite1/registry-jpa/namespaces/ns1/nodes.log",
         "/project/tests-logs/suite1/registry-jpa/namespaces/ns1/pod-a-c1.log",
         "/project/tests-logs/suite1/registry-jpa/namespaces/ns1/pod-a-c2.log"] :=
  ((SaveTestPodsLogs_files exampleCluster "suite1" "registry-jpa" "ns1" _ emptyWorld rfl).2
    (by decide)).1.trans (by decide)

theorem string_append_left_cancel {a b c : String} : a ++ b = a ++ c ↔ b = c := by
  constructor
  · intro h
    have hd := congrArg String.data h
    simp only [String.data_append] at hd
    exact String.ext (List.append_cancel_left hd)
  · intro h; rw [h]

theorem string_append_right_cancel {a b c : String} : a ++ c = b ++ c ↔ a = b := by
  constructor
  · intro h
    have hd := congrArg String.data h
    simp only [String.data_append] at hd
    exact String.ext (List.append_cancel_right hd)
  · intro h; rw [h]

theorem inDir_append (dir x : String) : inDir dir (dir ++ x) = true := by
  unfold inDir
  rw [List.isPrefixOf_iff_prefix, String.data_append]
  exact List.prefix_append _ _

theorem podLogFiles_eq_map (logsDir : String) (pods : List Pod) :
    podLogFiles logsDir pods = (podLogNames pods).map fun n => logsDir ++ (n ++ ".log") := by
  simp [podLogFiles, podLogNames, List.map_flatMap, String.append_assoc, Function.comp_def]

theorem podLogFiles_length (logsDir : String) (pods : List Pod) :
    (podLogFiles logsDir pods).length = runningContainers pods := by
  simp [podLogFiles, runningContainers, List.length_flatMap, Function.comp_def]

theorem dash_mem_podLogNames (pods : List Pod) (n : String) (h : n ∈ podLogNames pods) :
    '-' ∈ n.data := by
  unfold podLogNames at h
  obtain ⟨pod, _, hn⟩ := List.mem_flatMap.mp h
  obtain ⟨container, _, rfl⟩ := List.mem_map.mp hn
  simp [String.data_append]

theorem statusFiles_nodup (logsDir : String) : (statusFiles logsDir).Nodup := by
  simp [statusFiles, string_append_left_cancel]

theorem statusFile_not_podLogFile (logsDir : String) (pods : List Pod) (p : String)
    (h1 : p ∈ statusFiles logsDir) : p ∉ podLogFiles logsDir pods := by
  intro h2
  rw [podLogFiles_eq_map] at h2
  obtain ⟨n, hn, rfl⟩ := List.mem_map.mp h2
  have hdash := dash_mem_podLogNames pods n hn
  simp only [statusFiles, List.mem_cons, List.mem_singleton, string_append_left_cancel,
    List.not_mem_nil, or_false] at h1
  have e1 : ("pods.log" : String) = "pods" ++ ".log" := by decide
  have e2 : ("events.log" : String) = "events" ++ ".log" := by decide
  have e3 : ("nodes.log" : String) = "nodes" ++ ".log" := by decide
  rw [e1, e2, e3] at h1
  simp only [string_append_right_cancel] at h1
  rcases h1 with h | h | h <;> rw [h] at hdash <;> revert hdash <;> decide

theorem testLogFiles_nodup (logsDir : String) (pods : List Pod)
    (hnames : (podLogNames pods).Nodup) :
    (statusFiles logsDir ++ podLogFiles logsDir pods).Nodup := by
  refine List.Nodup.append (statusFiles_nodup logsDir) ?_ ?_
  · rw [podLogFiles_eq_map]
    refine List.Nodup.map ?_ hnames
    intro a b hab
    exact string_append_right_cancel.mp (string_append_left_cancel.mp hab)
  · intro p h1 h2
    exact statusFile_not_podLogFile logsDir pods p h1 h2

theorem testLogFiles_inDir (logsDir : String) (pods : List Pod) (p : String)
    (h : p ∈ statusFiles logsDir ++ podLogFiles logsDir pods) : inDir logsDir p = true := by
  rcases List.mem_append.mp h with h | h
  · simp only [statusFiles, List.mem_cons, List.mem_singleton, List.not_mem_nil,
      or_false] at h
    rcases h with rfl | rfl | rfl <;> exact inDir_append _ _
  · rw [podLogFiles_eq_map] at h
    obtain ⟨n, _, rfl⟩ := List.mem_map.mp h
    exact inDir_append _ _

theorem putAll_paths_of_nodup (ps : List (String × String)) (fs : List (String × String))
    (hnd : (ps.map Prod.fst).Nodup) (hdis : ∀ p ∈ ps.map Prod.fst, p ∉ fs.map Prod.fst) :
    (putAll ps fs).map Prod.fst = (ps.map Prod.fst).reverse ++ fs.map Prod.fst := by
  induction ps generalizing fs with
  | nil => simp [putAll]
  | cons q qs ih =>
    have e : putAll (q :: qs) fs = putAll qs (putFile q.1 q.2 fs) := rfl
    rw [List.map_cons, List.nodup_cons] at hnd
    have hq : q.1 ∉ fs.map Prod.fst := hdis q.1 (by simp)
    have hput : putFile q.1 q.2 fs = (q.1, q.2) :: fs := by
      unfold putFile
      congr 1
      rw [List.filter_eq_self]
      intro f hf
      have : f.1 ≠ q.1 := fun h => hq (h ▸ List.mem_map_of_mem Prod.fst hf)
      simpa using this
    rw [e, hput, ih _ hnd.2]
    · simp
    · intro p hp hmem
      rw [List.map_cons, List.mem_cons] at hmem
      rcases hmem with h | h
      · exact hnd.1 (h ▸ hp)
      · exact hdis p (List.mem_cons_of_mem _ hp) h

/-- The files of a directory that held none, after a run that wrote pairwise distinct
files, all of them in the directory. -/
theorem files_inDir_after {f : World → Outcome × World} (hf : Uniform f) (w : World)
    (dir : String) (ps : List String) (hw : (f w).2.written = w.written ++ ps)
    (hnd : ps.Nodup) (hin : ∀ p ∈ ps, inDir dir p = true)
    (hfresh : ∀ g ∈ w.files, inDir dir g.1 = false) :
    (((f w).2.files.filter fun g => inDir dir g.1).map Prod.fst) = ps.reverse := by
  obtain ⟨o, e, h⟩ := hf
  rw [h] at hw ⊢
  have hps : e.puts.map Prod.fst = ps := List.append_cancel_left hw
  show ((putAll e.puts w.files).filter fun g => inDir dir g.1).map Prod.fst = ps.reverse
  rw [putAll_eq, List.filter_append]
  have h1 : (putAll e.puts []).filter (fun g => inDir dir g.1) = putAll e.puts [] := by
    rw [List.filter_eq_self]
    intro g hg
    rcases mem_putAll e.puts [] g hg with hg1 | hg1
    · exact hin g.1 (hps ▸ hg1)
    · simp at hg1
  have h2 : (w.files.filter fun g => decide (g.1 ∉ e.puts.map Prod.fst)).filter
      (fun g => inDir dir g.1) = [] := by
    rw [List.filter_eq_nil_iff]
    intro g hg
    simp [hfresh g (List.mem_filter.mp hg).1]
  rw [h1, h2, List.append_nil, putAll_paths_of_nodup e.puts [] (hps ▸ hnd) (by simp), hps]
  simp

/-- C4, counterexample: two running pods with one container status each, pod `a` with
container `b-c` and pod `a-b` with container `c`.  No call fails, the run returns, and it
leaves four files in a log directory that was empty, not 3 + (1 + 1) = 5: both container
logs go to `a-b-c.log`. -/
theorem SaveTestPodsLogs_name_collision :
    (SaveTestPodsLogs collidingCluster "suite1" "ns1" "registry-jpa" emptyWorld).1
      = Outcome.returned
    ∧ (SaveTestPodsLogs collidingCluster "suite1" "ns1" "registry-jpa" emptyWorld).2.files.map
        Prod.fst
      = ["/project/tests-logs/suite1/registry-jpa/namespaces/ns1/a-b-c.log",
         "/project/tests-logs/suite1/registry-jpa/namespaces/ns1/nodes.log",
         "/project/tests-logs/suite1/registry-jpa/namespaces/ns1/events.log",
         "/project/tests-logs/suite1/registry-jpa/namespaces/ns1/pods.log"]
    ∧ 3 + runningContainers
          [{ Name := "a", Namespace := "ns1", Phase := PodPhase.Running,
             ContainerStatuses := [{ Name := "b-c" }] },
           { Name := "a-b", Namespace := "ns1", Phase := PodPhase.Running,
             ContainerStatuses := [{ Name := "c" }] }] = 5
    ∧ (SaveTestPodsLogs collidingCluster "suite1" "ns1" "registry-jpa"
          emptyWorld).2.files.length
        ≠ 3 + runningContainers
          [{ Name := "a", Namespace := "ns1", Phase := PodPhase.Running,
             ContainerStatuses := [{ Name := "b-c" }] },
           { Name := "a-b", Namespace := "ns1", Phase := PodPhase.Running,
             ContainerStatuses := [{ Name := "c" }] }] := by
  decide

/-- C4, as amended: for every namespace whose pod list has N pods in the Running phase, the
i-th having C_i container statuses (and any number of non-running pods), and in which the
names `<podName>-<container>` of these container statuses are pairwise distinct, a
`SaveTestPodsLogs` run in which no cluster or file-system call fails (it returns) writes
exactly 3 + sum(C_i) files, pairwise distinct, all in the log directory and all there
after the run; a log directory that held no file before the run holds exactly these
3 + sum(C_i) files after it, never fewer. -/
theorem SaveTestPodsLogs_file_count (c : Cluster) (suiteID testName ns : String)
    (pods : List Pod) (w : World) (hpods : c.listPods ns [] = Except.ok pods)
    (hret : (SaveTestPodsLogs c suiteID ns testName w).1 = Outcome.returned)
    (hnames : (podLogNames pods).Nodup) :
    ∃ ps, (SaveTestPodsLogs c suiteID ns testName w).2.written = w.written ++ ps
      ∧ ps.Nodup
      ∧ ps.length = 3 + runningContainers pods
      ∧ (∀ p ∈ ps, inDir (logsDirOf c.SuiteProjectDir suiteID testName ns) p = true
          ∧ p ∈ (SaveTestPodsLogs c suiteID ns testName w).2.files.map Prod.fst)
      ∧ ((∀ g ∈ w.files, inDir (logsDirOf c.SuiteProjectDir suiteID testName ns) g.1 = false) →
          (((SaveTestPodsLogs c suiteID ns testName w).2.files.filter fun g =>
              inDir (logsDirOf c.SuiteProjectDir suiteID testName ns) g.1).map Prod.fst).Nodup
          ∧ ((SaveTestPodsLogs c suiteID ns testName w).2.files.filter fun g =>
              inDir (logsDirOf c.SuiteProjectDir suiteID testName ns) g.1).length
            = 3 + runningContainers pods) := by
  have hw := SaveTestPodsLogs_written c suiteID ns testName pods w hpods hret
  have hu := uniform_SaveTestPodsLogs c suiteID ns testName
  have hnd := testLogFiles_nodup (logsDirOf c.SuiteProjectDir suiteID testName ns) pods hnames
  have hlen : (statusFiles (logsDirOf c.SuiteProjectDir suiteID testName ns)
      ++ podLogFiles (logsDirOf c.SuiteProjectDir suiteID testName ns) pods).length
      = 3 + runningContainers pods := by
    simp [statusFiles, podLogFiles_length]; omega
  refine ⟨_, hw, hnd, hlen, fun p hp => ⟨testLogFiles_inDir _ pods p hp,
    written_present hu w _ hw p hp⟩, fun hfresh => ?_⟩
  have hafter := files_inDir_after hu w _ _ hw hnd (testLogFiles_inDir _ pods) hfresh
  constructor
  · rw [hafter]; exact List.nodup_reverse.mpr hnd
  · rw [← List.length_map _ Prod.fst, hafter, List.length_reverse, hlen]

/-- C4, witness: the example cluster, one running pod with two containers: five files. -/
theorem SaveTestPodsLogs_file_count_witness :
    ∃ ps, (SaveTestPodsLogs exampleCluster "suite1" "ns1" "registry-jpa" emptyWorld).2.written
        = emptyWorld.written ++ ps
      ∧ ps.Nodup
      ∧ ps.length = 3 + 2
      ∧ (∀ p ∈ ps, inDir (logsDirOf "/project" "suite1" "registry-jpa" "ns1") p = true
          ∧ p ∈ (SaveTestPodsLogs exampleCluster "suite1" "ns1" "registry-jpa"
              emptyWorld).2.files.map Prod.fst)
      ∧ ((∀ g ∈ emptyWorld.files,
            inDir (logsDirOf "/project" "suite1" "registry-jpa" "ns1") g.1 = false) →
          (((SaveTestPodsLogs exampleCluster "suite1" "ns1" "registry-jpa"
              emptyWorld).2.files.filter fun g =>
              inDir (logsDirOf "/project" "suite1" "registry-jpa" "ns1") g.1).map
                Prod.fst).Nodup
          ∧ ((SaveTestPodsLogs exampleCluster "suite1" "ns1" "registry-jpa"
              emptyWorld).2.files.filter fun g =>
              inDir (logsDirOf "/project" "suite1" "registry-jpa" "ns1") g.1).length
            = 3 + 2) :=
  SaveTestPodsLogs_file_count exampleCluster "suite1" "registry-jpa" "ns1"
    [{ Name := "pod-a", Namespace := "ns1", Phase := PodPhase.Running,
       ContainerStatuses := [{ Name := "c1" }, { Name := "c2" }] },
     { Name := "pod-b", Namespace := "ns1", Phase := PodPhase.Pending,
       ContainerStatuses := [{ Name := "c1" }] }]
    emptyWorld rfl (by decide) (by decide)

theorem operatorDir_eq (project suiteID ns : String) :
    project ++ "/tests-logs/" ++ suiteID ++ "/operator/namespaces/" ++ ns ++ "/"
      = logsDirOf project suiteID "operator" ns := by
  have e : ("/operator/namespaces/" : String) = "/" ++ ("operator" ++ "/namespaces/") := by
    decide
  simp only [logsDirOf, String.append_assoc, e]

theorem saveOperatorPods_written (c : Cluster) (logsDir : String) (pods : List Pod)
    (w : World) (h : (saveOperatorPods c logsDir pods w).1 = Outcome.returned) :
    (saveOperatorPods c logsDir pods w).2.written
      = w.written ++ operatorLogFiles logsDir pods := by
  induction pods generalizing w with
  | nil => simp [saveOperatorPods, operatorLogFiles]
  | cons pod rest ih =>
    simp only [saveOperatorPods] at h ⊢
    cases hg : c.getLogs pod.Namespace pod.Name "" with
    | error e => simp [hg] at h
    | ok podLogs =>
      cases hc : podLogs.copy with
      | error e => simp [hg, hc] at h
      | ok buf =>
        simp only [hg, hc] at h ⊢
        obtain ⟨h1, h2⟩ := andThen_fst_returned h
        rw [h2] at h ⊢
        rw [ih _ h, (WriteFile_written c _ buf _ h1).1]
        simp [operatorLogFiles, logInfo]

theorem uniform_saveOperatorPods (c : Cluster) (logsDir : String) (pods : List Pod) :
    Uniform (saveOperatorPods c logsDir pods) := by
  induction pods with
  | nil => exact uniform_const _
  | cons pod rest ih =>
    show Uniform fun w => saveOperatorPods c logsDir (pod :: rest) w
    simp only [saveOperatorPods]
    cases hg : c.getLogs pod.Namespace pod.Name "" with
    | error e => exact uniform_const _
    | ok podLogs =>
      cases hc : podLogs.copy with
      | error e => simpa only [hc] using uniform_const (Outcome.failed e)
      | ok buf =>
        simpa only [hc] using uniform_andThen
          (uniform_after (uniform_logInfo _ _) (uniform_WriteFile c _ buf)) ih

theorem writesWithin_saveOperatorPods (c : Cluster) (logsDir : String) (pods : List Pod) :
    WritesWithin (saveOperatorPods c logsDir pods) (operatorLogFiles logsDir pods) := by
  induction pods with
  | nil => exact writesWithin_const _ _
  | cons pod rest ih =>
    show WritesWithin (fun w => saveOperatorPods c logsDir (pod :: rest) w) _
    simp only [saveOperatorPods]
    cases hg : c.getLogs pod.Namespace pod.Name "" with
    | error e => exact writesWithin_const _ _
    | ok podLogs =>
      cases hc : podLogs.copy with
      | error e => simpa only [hc] using writesWithin_const (Outcome.failed e) _
      | ok buf =>
        have e : operatorLogFiles logsDir (pod :: rest)
            = [logsDir ++ pod.Name ++ ".log"] ++ operatorLogFiles logsDir rest := rfl
        rw [e]
        simpa only [hc] using writesWithin_andThen
          (writesWithin_after (g := logInfo _ _) (fun _ => rfl)
            (writesWithin_WriteFile c (logsDir ++ pod.Name ++ ".log") buf))
          (fun w h => (WriteFile_written c _ buf _ h).1) ih

theorem uniform_SaveOperatorLogs (c : Cluster) (suiteID ns : String) :
    Uniform (SaveOperatorLogs c suiteID ns) := by
  unfold SaveOperatorLogs
  refine uniform_after (uniform_logInfo _ _) (uniform_after (uniform_MkdirAll _)
    (uniform_andThen (uniform_createStatusFiles c _ ns) ?_))
  cases hd : c.getDeployment ns c.OperatorDeploymentName with
  | error e =>
    cases e with
    | notFound => exact uniform_logInfo _ _
    | other msg => exact uniform_const _
  | ok operatorDeployment =>
    by_cases hz : operatorDeployment.AvailableReplicas = 0
    · simp only [hz, if_true]
      exact uniform_logInfo _ _
    · simp only [hz, if_false]
      cases hp : c.listPods ns operatorDeployment.MatchLabels with
      | error e => exact uniform_const _
      | ok pods => exact uniform_saveOperatorPods c _ pods

/-- C6: in a run of `SaveOperatorLogs` that reaches the deployment lookup (the three status
files are created), when the operator deployment is not found, or is found with zero
available replicas, the run returns without an assertion failure; it has written the three
status files and no pod or container log file; and after its opening message it has emitted
exactly one informational message, the note that the operator logs are skipped.  Every
other error of the lookup is an assertion failure. -/
theorem SaveOperatorLogs_skip (c : Cluster) (suiteID ns : String) (w : World)
    (hpods : c.createFails (logsDirOf c.SuiteProjectDir suiteID "operator" ns ++ "pods.log")
      = false)
    (hevents : c.createFails (logsDirOf c.SuiteProjectDir suiteID "operator" ns
      ++ "events.log") = false)
    (hnodes : c.createFails (logsDirOf c.SuiteProjectDir suiteID "operator" ns ++ "nodes.log")
      = false) :
    (c.getDeployment ns c.OperatorDeploymentName = Except.error ApiError.notFound →
      (SaveOperatorLogs c suiteID ns w).1 = Outcome.returned
      ∧ (SaveOperatorLogs c suiteID ns w).2.written
          = w.written ++ statusFiles (logsDirOf c.SuiteProjectDir suiteID "operator" ns)
      ∧ (SaveOperatorLogs c suiteID ns w).2.infos
          = w.infos ++ skipMessages suiteID ns
              "Skipping storing operator logs because operator deployment not found")
    ∧ (∀ d, c.getDeployment ns c.OperatorDeploymentName = Except.ok d →
        d.AvailableReplicas = 0 →
        (SaveOperatorLogs c suiteID ns w).1 = Outcome.returned
        ∧ (SaveOperatorLogs c suiteID ns w).2.written
            = w.written ++ statusFiles (logsDirOf c.SuiteProjectDir suiteID "operator" ns)
        ∧ (SaveOperatorLogs c suiteID ns w).2.infos
            = w.infos ++ skipMessages suiteID ns
                "Skipping storing operator logs because operator deployment is not ready")
    ∧ (∀ e, c.getDeployment ns c.OperatorDeploymentName
          = Except.error (ApiError.other e) →
        (SaveOperatorLogs c suiteID ns w).1 = Outcome.failed e
        ∧ (SaveOperatorLogs c suiteID ns w).2.written
            = w.written ++ statusFiles (logsDirOf c.SuiteProjectDir suiteID "operator" ns)) := by
  have hok := fun w₀ => createStatusFiles_ok c _ ns w₀ hpods hevents hnodes
  have hwr := fun w₀ => createStatusFiles_written c _ ns w₀ (hok w₀)
  unfold SaveOperatorLogs
  simp only [operatorDir_eq]
  refine ⟨fun hd => ?_, fun d hd hz => ?_, fun e hd => ?_⟩
  · rw [andThen_of_returned _ (hok _)]
    simp [hd, logInfo, (hwr _).1, (hwr _).2.1, MkdirAll, skipMessages]
  · rw [andThen_of_returned _ (hok _)]
    simp [hd, hz, logInfo, (hwr _).1, (hwr _).2.1, MkdirAll, skipMessages]
  · rw [andThen_of_returned _ (hok _)]
    simp [hd, logInfo, (hwr _).1, MkdirAll]

/-- C6, witness: a cluster without the operator deployment. -/
theorem SaveOperatorLogs_skip_witness :
    (SaveOperatorLogs noOperatorCluster "suite1" "ns1" emptyWorld).1 = Outcome.returned
    ∧ (SaveOperatorLogs noOperatorCluster "suite1" "ns1" emptyWorld).2.written
        = emptyWorld.written ++ statusFiles (logsDirOf "/project" "suite1" "operator" "ns1")
    ∧ (SaveOperatorLogs noOperatorCluster "suite1" "ns1" emptyWorld).2.infos
        = emptyWorld.infos ++ skipMessages "suite1" "ns1"
            "Skipping storing operator logs because operator deployment not found" :=
  (SaveOperatorLogs_skip noOperatorCluster "suite1" "ns1" emptyWorld rfl rfl rfl).1 rfl

/-- C8: for every suite id and namespace in which the operator deployment exists with at
least one available replica, the files `SaveOperatorLogs` writes are `pods.log`,
`events.log`, `nodes.log` and one `<podName>.log` per pod matched by the selector labels of
the deployment, all under `<project>/tests-logs/<suiteID>/operator/namespaces/<namespace>/`.
A run that returns has written exactly these, in this order, and they are in the file
system it leaves; a run that an assertion aborts has written the first of them and nothing
else. -/
theorem SaveOperatorLogs_files (c : Cluster) (suiteID ns : String) (d : Deployment)
    (pods : List Pod) (w : World)
    (hdep : c.getDeployment ns c.OperatorDeploymentName = Except.ok d)
    (hreplicas : 1 ≤ d.AvailableReplicas)
    (hpods : c.listPods ns d.MatchLabels = Except.ok pods) :
    (∃ n, (SaveOperatorLogs c suiteID ns w).2.written
        = w.written
          ++ (statusFiles (logsDirOf c.SuiteProjectDir suiteID "operator" ns)
              ++ operatorLogFiles (logsDirOf c.SuiteProjectDir suiteID "operator" ns)
                  pods).take n)
    ∧ ((SaveOperatorLogs c suiteID ns w).1 = Outcome.returned →
        (SaveOperatorLogs c suiteID ns w).2.written
          = w.written
            ++ (statusFiles (logsDirOf c.SuiteProjectDir suiteID "operator" ns)
                ++ operatorLogFiles (logsDirOf c.SuiteProjectDir suiteID "operator" ns) pods)
        ∧ ∀ p ∈ statusFiles (logsDirOf c.SuiteProjectDir suiteID "operator" ns)
                ++ operatorLogFiles (logsDirOf c.SuiteProjectDir suiteID "operator" ns) pods,
            inDir (logsDirOf c.SuiteProjectDir suiteID "operator" ns) p = true
            ∧ p ∈ (SaveOperatorLogs c suiteID ns w).2.files.map Prod.fst) := by
  have hz : ¬ d.AvailableReplicas = 0 := by omega
  have hfun : SaveOperatorLogs c suiteID ns = fun w =>
      andThen (createStatusFiles c (logsDirOf c.SuiteProjectDir suiteID "operator" ns) ns
        (MkdirAll (logsDirOf c.SuiteProjectDir suiteID "operator" ns)
          (logInfo "Collecting operator logs" ["suite", suiteID, "namespace", ns] w)))
        (saveOperatorPods c (logsDirOf c.SuiteProjectDir suiteID "operator" ns) pods) := by
    funext w
    unfold SaveOperatorLogs
    simp only [operatorDir_eq, hdep, hz, if_false, hpods]
  have hwithin : WritesWithin (SaveOperatorLogs c suiteID ns)
      (statusFiles (logsDirOf c.SuiteProjectDir suiteID "operator" ns)
        ++ operatorLogFiles (logsDirOf c.SuiteProjectDir suiteID "operator" ns) pods) := by
    rw [hfun]
    exact writesWithin_after (g := logInfo _ _) (fun _ => rfl)
      (writesWithin_after (g := MkdirAll _) (fun _ => rfl)
        (writesWithin_andThen (writesWithin_createStatusFiles c _ ns)
          (fun w h => (createStatusFiles_written c _ ns w h).1)
          (writesWithin_saveOperatorPods c _ pods)))
  refine ⟨hwithin w, fun hret => ?_⟩
  have hw : (SaveOperatorLogs c suiteID ns w).2.written
      = w.written
        ++ (statusFiles (logsDirOf c.SuiteProjectDir suiteID "operator" ns)
            ++ operatorLogFiles (logsDirOf c.SuiteProjectDir suiteID "operator" ns) pods) := by
    rw [hfun] at hret ⊢
    simp only at hret ⊢
    obtain ⟨h1, h2⟩ := andThen_fst_returned hret
    rw [h2] at hret ⊢
    rw [saveOperatorPods_written c _ pods _ hret, (createStatusFiles_written c _ ns _ h1).1]
    simp [MkdirAll, logInfo]
  refine ⟨hw, fun p hp => ⟨?_, written_present (uniform_SaveOperatorLogs c suiteID ns) w _ hw
    p hp⟩⟩
  rcases List.mem_append.mp hp with h | h
  · simp only [statusFiles, List.mem_cons, List.mem_singleton, List.not_mem_nil,
      or_false] at h
    rcases h with rfl | rfl | rfl <;> exact inDir_append _ _
  · obtain ⟨pod, _, rfl⟩ := List.mem_map.mp h
    rw [String.append_assoc]
    exact inDir_append _ _

/-- C8, witness: the example cluster, whose selector matches `pod-a` and `pod-b`. -/
theorem SaveOperatorLogs_files_witness :
    (SaveOperatorLogs exampleCluster "suite1" "ns1" emptyWorld).2.written
      = ["/project/tests-logs/suite1/operator/namespaces/ns1/pods.log",
         "/project/tests-logs/suite1/operator/namespaces/ns1/events.log",
         "/project/tests-logs/suite1/operator/namespaces/ns1/nodes.log",
         "/project/tests-logs/suite1/operator/namespaces/ns1/pod-a.log",
         "/project/tests-logs/suite1/operator/namespaces/ns1/pod-b.log"] :=
  ((SaveOperatorLogs_files exampleCluster "suite1" "ns1" _ _ emptyWorld rfl (by decide)
    rfl).2 (by decide)).1.trans (by decide)

theorem intercalate_go_length (s : String) (l : List String) (acc : String) :
    acc.length ≤ (String.intercalate.go acc s l).length := by
  induction l generalizing acc with
  | nil => simp [String.intercalate.go]
  | cons a as ih =>
    have h := ih (acc ++ s ++ a)
    simp only [String.intercalate.go, String.length_append] at h ⊢
    omega

theorem intercalate_go_append (s : String) (l : List String) (acc x : String) :
    String.intercalate.go acc s (l ++ [x]) = String.intercalate.go acc s l ++ s ++ x := by
  induction l generalizing acc with
  | nil => simp [String.intercalate.go]
  | cons a as ih => simpa [String.intercalate.go] using ih (acc ++ s ++ a)

theorem foldl_dash (l : List String) (x : String) :
    l.foldl (fun acc comp => acc ++ (comp ++ "-")) (x ++ "-")
      = String.intercalate.go x "-" l ++ "-" := by
  induction l generalizing x with
  | nil => simp [String.intercalate.go]
  | cons b bs ih =>
    have h := ih (x ++ "-" ++ b)
    simp only [List.foldl_cons, String.intercalate.go] at h ⊢
    rw [← h, String.append_assoc (x ++ "-") b "-"]

theorem mk_dropLast_dash (s : String) : String.mk (s ++ "-").data.dropLast = s := by
  apply String.ext
  simp only [String.data_append]
  show (s.data ++ ['-']).dropLast = s.data
  exact List.dropLast_concat

/-- The joined hierarchy texts, as `SaveLogs` leaves them before it looks at the ID. -/
theorem testName_hierarchy (a : String) (as : List String) :
    String.mk ((a :: as).foldl (fun acc comp => acc ++ (comp ++ "-")) "").data.dropLast
      = "-".intercalate (a :: as) := by
  simp only [List.foldl_cons, String.empty_append, String.intercalate]
  rw [foldl_dash, mk_dropLast_dash]

/-- C9, counterexample: with the single hierarchy text `""` and the ID `x` the test name is
`x`, while the hyphen-joined path of `""` followed by `x` is `-x`. -/
theorem testName_single_empty_text :
    testName [""] "x" = "x" ∧ "-".intercalate ([""] ++ ["x"]) = "-x"
      ∧ testName [""] "x" ≠ "-".intercalate ([""] ++ ["x"]) := by
  decide

/-- C9, as amended: for every list of container-hierarchy texts and every test-context ID,
the scope name `SaveLogs` passes to `SaveTestPodsLogs` is the hierarchy texts, followed by
the ID when the ID is non-empty, joined with `-`; except when the hierarchy is the single
text `""`, where the scope name is the ID alone, with no hyphen before it. -/
theorem testName_eq (containerHierarchyTexts : List String) (suiteCtx : SuiteContext)
    (ctx : TestContext) (c : Cluster) (w : World) :
    SaveLogs c containerHierarchyTexts suiteCtx ctx w
        = SaveTestPodsLogs c suiteCtx.SuiteID ctx.RegistryNamespace
            (testName containerHierarchyTexts ctx.ID) w
    ∧ testName containerHierarchyTexts ctx.ID
        = if containerHierarchyTexts = [""] then ctx.ID
          else "-".intercalate
            (containerHierarchyTexts ++ if ctx.ID = "" then [] else [ctx.ID]) := by
  refine ⟨rfl, ?_⟩
  generalize ctx.ID = ID
  cases containerHierarchyTexts with
  | nil =>
    by_cases hID : ID = "" <;> simp [testName, hID, String.intercalate, String.intercalate.go]
  | cons a as =>
    have hjoin := testName_hierarchy a as
    unfold testName
    simp only [List.length_cons, ne_eq, Nat.add_one_ne_zero, not_false_eq_true, if_true]
    rw [hjoin]
    by_cases hID : ID = ""
    · by_cases hl : a :: as = [""]
      · obtain ⟨ha, has⟩ := List.cons.inj hl
        subst ha has
        simp [hID, String.intercalate, String.intercalate.go]
      · simp [hID, hl]
    · simp only [hID, not_false_eq_true, if_true, if_false]
      by_cases hl : a :: as = [""]
      · obtain ⟨ha, has⟩ := List.cons.inj hl
        subst ha has
        simp [String.intercalate, String.intercalate.go]
      · have hne : ("-".intercalate (a :: as)).length ≠ 0 := by
          cases as with
          | nil =>
            have ha : a ≠ "" := fun h => hl (by rw [h])
            simp only [String.intercalate, String.intercalate.go]
            intro h0
            exact ha (String.ext (List.length_eq_zero.mp h0))
          | cons b bs =>
            have h := intercalate_go_length "-" bs (a ++ "-" ++ b)
            simp only [String.intercalate, String.intercalate.go, String.length_append] at h ⊢
            have : ("-" : String).length = 1 := rfl
            omega
        simp only [hne, hl, if_false]
        simp only [String.intercalate, List.cons_append]
        rw [intercalate_go_append, String.append_assoc]

end Logs

namespace Testcase

/-! ## Theorems on the runner -/

theorem removeRegistryStorage_trace (k : Collaborators) (s : Run) :
    (removeRegistryStorage k s).2.trace = s.trace ++ removeCalls s.ctx.Storage := by
  unfold removeRegistryStorage removeCalls
  split_ifs
  · cases hr : k.remove Variant.jpa <;> simp [call, hr]
  · cases hr : k.remove Variant.streams <;> simp [call, hr]
  · cases hr : k.remove Variant.infinispan <;> simp [call, hr]
  · simp

theorem cleanRegistryDeployment_trace (k : Collaborators) (s : Run) :
    (cleanRegistryDeployment k s).2.trace = s.trace ++ teardownCalls k s.ctx.Storage := by
  rcases hn : k.NewForConfigOrDie with _ | _ | _ <;>
    cases hl : k.SaveTestPodsLogs <;> cases he : k.ExecuteCleanups <;>
    simp [cleanRegistryDeployment, call, teardownCalls, hn, hl, he,
      removeRegistryStorage_trace]

theorem removeCalls_tag (v : Variant) : removeCalls v.tag = [Call.remove v] := by
  cases v <;> simp [removeCalls, Variant.tag, StorageJpa, StorageStreams, StorageInfinispan]

theorem removeCalls_cases (storage : String) :
    removeCalls storage = []
      ∨ ∃ v : Variant, storage = v.tag ∧ removeCalls storage = [Call.remove v] := by
  unfold removeCalls
  split_ifs with h1 h2 h3
  · exact Or.inr ⟨Variant.jpa, h1, rfl⟩
  · exact Or.inr ⟨Variant.streams, h2, rfl⟩
  · exact Or.inr ⟨Variant.infinispan, h3, rfl⟩
  · exact Or.inl rfl

theorem mem_removeCalls (storage : String) (c : Call) (h : c ∈ removeCalls storage) :
    ∃ v : Variant, c = Call.remove v ∧ storage = v.tag := by
  rcases removeCalls_cases storage with h0 | ⟨v, hv, h0⟩
  · simp [h0] at h
  · exact ⟨v, by simpa [h0] using h, hv⟩

theorem teardownSteps_removeCalls (storage : String) :
    teardownSteps (removeCalls storage) = removeCalls storage := by
  rcases removeCalls_cases storage with h | ⟨v, _, h⟩ <;> simp [h, teardownSteps]

theorem teardownSteps_teardownCalls (k : Collaborators) (storage : String) :
    teardownSteps (teardownCalls k storage)
      = if k.NewForConfigOrDie = some false then
          Call.SaveTestPodsLogs ::
            (if k.SaveTestPodsLogs = Outcome.returned then
              Call.ExecuteCleanups ::
                (if k.ExecuteCleanups = Outcome.returned then removeCalls storage else [])
             else [])
        else [] := by
  have h := teardownSteps_removeCalls storage
  unfold teardownSteps at h
  unfold teardownCalls teardownSteps
  split_ifs <;> simp [List.filter_cons, h]

theorem deployAndTest_ctx (k : Collaborators) (testFunction : Outcome) (s : Run) :
    (deployAndTest k testFunction s).2.ctx = s.ctx := by
  unfold deployAndTest deployRegistryStorage
  split_ifs
  · cases hd : k.deploy Variant.jpa <;> simp [call, andThen, hd]
  · cases hd : k.deploy Variant.streams <;> simp [call, andThen, hd]
  · cases hd : k.deploy Variant.infinispan <;> simp [call, andThen, hd]
  · simp [andThen]

theorem deployAndTest_no_remove (k : Collaborators) (testFunction : Outcome) (s : Run)
    (v : Variant) (h : Call.remove v ∉ s.trace) :
    Call.remove v ∉ (deployAndTest k testFunction s).2.trace := by
  unfold deployAndTest deployRegistryStorage
  split_ifs
  · cases hd : k.deploy Variant.jpa <;> simp [call, andThen, hd, h]
  · cases hd : k.deploy Variant.streams <;> simp [call, andThen, hd, h]
  · cases hd : k.deploy Variant.infinispan <;> simp [call, andThen, hd, h]
  · simp [andThen, h]

theorem executeTestOnStorage_trace (k : Collaborators) (testContext : TestContext)
    (testFunction : Outcome) :
    (executeTestOnStorage k testContext testFunction).2.trace
      = (deployAndTest k testFunction { ctx := defaultID testContext, trace := [] }).2.trace
        ++ teardownCalls k testContext.Storage := by
  have hs : (defaultID testContext).Storage = testContext.Storage := by
    unfold defaultID; split_ifs <;> rfl
  have h := cleanRegistryDeployment_trace k
    (deployAndTest k testFunction { ctx := defaultID testContext, trace := [] }).2
  rw [deployAndTest_ctx] at h
  simp only [hs] at h
  unfold executeTestOnStorage
  simp only []
  split <;> next heq => rw [← h, heq]

theorem mem_teardownCalls_remove (k : Collaborators) (storage : String) (v : Variant)
    (h : Call.remove v ∈ teardownCalls k storage) :
    k.NewForConfigOrDie = some false ∧ k.SaveTestPodsLogs = Outcome.returned
      ∧ k.ExecuteCleanups = Outcome.returned ∧ storage = v.tag
      ∧ teardownCalls k storage
        = [Call.info "-----------------------------------------------------------",
            Call.NewForConfigOrDie, Call.SaveTestPodsLogs, Call.ExecuteCleanups,
            Call.remove v] := by
  unfold teardownCalls at h ⊢
  split_ifs at h ⊢ with hn hl he <;> simp at h
  obtain ⟨v2, hv2, hst⟩ := mem_removeCalls _ _ h
  cases hv2
  refine ⟨hn, hl, he, hst, ?_⟩
  rw [hst, removeCalls_tag]
  rfl

theorem defaultID_storage (testContext : TestContext) :
    (defaultID testContext).Storage = testContext.Storage := by
  unfold defaultID
  split_ifs <;> rfl

theorem deployAndTest_trace_tag (k : Collaborators) (v : Variant) (testFunction : Outcome)
    (s : Run) (hs : s.ctx.Storage = v.tag) :
    (deployAndTest k testFunction s).2.trace
      = s.trace ++ Call.deploy v ::
          (if k.deploy v = Outcome.returned then
            [Call.info "-----------------------------------------------------------",
              Call.testFunction]
           else []) := by
  cases v <;> cases hd : k.deploy _ <;>
    simp_all [deployAndTest, deployRegistryStorage, call, andThen, Variant.tag, StorageJpa,
      StorageStreams, StorageInfinispan]

/-- C1, as amended: for every storage variant and every test body, when the clientset is
made and neither the log capture nor the registered cleanups abort,
`executeTestOnStorage` makes exactly one call of the deploy routine of that variant, then
the test body (once when the deploy routine returned, not at all when it aborted), then
exactly one call of the remove routine of that variant; this holds whether the test body
returns or aborts, and whether the deploy routine returns or aborts. -/
theorem executeTestOnStorage_lifecycle (k : Collaborators) (v : Variant) (ID : String)
    (testFunction : Outcome)
    (hclient : k.NewForConfigOrDie = some false)
    (hlogs : k.SaveTestPodsLogs = Outcome.returned)
    (hcleanups : k.ExecuteCleanups = Outcome.returned) :
    lifecycle (executeTestOnStorage k { ID := ID, Storage := v.tag } testFunction).2.trace
      = [Call.deploy v]
        ++ (if k.deploy v = Outcome.returned then [Call.testFunction] else [])
        ++ [Call.remove v] := by
  rw [executeTestOnStorage_trace,
    deployAndTest_trace_tag k v testFunction _ (defaultID_storage _)]
  have ht : teardownCalls k v.tag
      = [Call.info "-----------------------------------------------------------",
          Call.NewForConfigOrDie, Call.SaveTestPodsLogs, Call.ExecuteCleanups,
          Call.remove v] := by
    simp [teardownCalls, hclient, hlogs, hcleanups, removeCalls_tag]
  rw [ht]
  cases k.deploy v <;> simp [lifecycle]

/-- C1, witness: the streams variant with a test body that aborts. -/
theorem executeTestOnStorage_lifecycle_witness :
    lifecycle (executeTestOnStorage allReturn { ID := "", Storage := Variant.streams.tag }
        (Outcome.failed "assertion")).2.trace
      = [Call.deploy Variant.streams]
        ++ (if allReturn.deploy Variant.streams = Outcome.returned then [Call.testFunction]
            else [])
        ++ [Call.remove Variant.streams] :=
  executeTestOnStorage_lifecycle allReturn Variant.streams "" (Outcome.failed "assertion")
    rfl rfl rfl

/-- C1, counterexample: with the jpa variant and a log capture that aborts, the deploy
routine and the test body are called and no remove routine is, so the trace has neither of
the two shapes the claim allows. -/
theorem executeTestOnStorage_remove_skipped :
    lifecycle (executeTestOnStorage logCaptureFails { ID := "", Storage := "jpa" }
        Outcome.returned).2.trace = [Call.deploy Variant.jpa, Call.testFunction]
    ∧ List.count (Call.remove Variant.jpa)
        (executeTestOnStorage logCaptureFails { ID := "", Storage := "jpa" }
          Outcome.returned).2.trace = 0
    ∧ ¬ (lifecycle (executeTestOnStorage logCaptureFails { ID := "", Storage := "jpa" }
          Outcome.returned).2.trace
          = [Call.deploy Variant.jpa, Call.testFunction, Call.remove Variant.jpa]
        ∨ lifecycle (executeTestOnStorage logCaptureFails { ID := "", Storage := "jpa" }
          Outcome.returned).2.trace
          = [Call.deploy Variant.jpa, Call.remove Variant.jpa]) := by
  decide

/-- C2, counterexample: with the jpa variant and collaborators that all return, the teardown
steps are log capture, then the registered cleanups, then the removal; the cleanups are not
run first. -/
theorem cleanRegistryDeployment_cleanups_not_first :
    teardownSteps
        (cleanRegistryDeployment allReturn
          { ctx := { ID := "jpa", Storage := "jpa" }, trace := [] }).2.trace
      = [Call.SaveTestPodsLogs, Call.ExecuteCleanups, Call.remove Variant.jpa]
    ∧ ¬ teardownSteps
        (cleanRegistryDeployment allReturn
          { ctx := { ID := "jpa", Storage := "jpa" }, trace := [] }).2.trace
      = [Call.ExecuteCleanups, Call.SaveTestPodsLogs, Call.remove Variant.jpa] := by
  decide

/-- C2, as amended: for every test context, `cleanRegistryDeployment` performs its three
steps in this order: it collects the pod logs (`SaveTestPodsLogs`) first, then runs the
caller-registered cleanup callbacks (`ctx.ExecuteCleanups`), then runs the storage-specific
removal routine.  In every run the steps made are an initial part of that sequence, and
they are the whole sequence when the clientset is made and neither of the first two
aborts. -/
theorem cleanRegistryDeployment_order (k : Collaborators) (s : Run) :
    ∃ t, (cleanRegistryDeployment k s).2.trace = s.trace ++ t
      ∧ (teardownSteps t = []
          ∨ teardownSteps t = [Call.SaveTestPodsLogs]
          ∨ teardownSteps t = [Call.SaveTestPodsLogs, Call.ExecuteCleanups]
          ∨ ∃ v : Variant, s.ctx.Storage = v.tag
              ∧ teardownSteps t = [Call.SaveTestPodsLogs, Call.ExecuteCleanups, Call.remove v])
      ∧ (k.NewForConfigOrDie = some false → k.SaveTestPodsLogs = Outcome.returned →
          k.ExecuteCleanups = Outcome.returned → ∀ v : Variant, s.ctx.Storage = v.tag →
          teardownSteps t = [Call.SaveTestPodsLogs, Call.ExecuteCleanups, Call.remove v]) := by
  refine ⟨teardownCalls k s.ctx.Storage, cleanRegistryDeployment_trace k s, ?_, ?_⟩
  · rw [teardownSteps_teardownCalls]
    split_ifs
    · rcases removeCalls_cases s.ctx.Storage with h | ⟨v, hv, h⟩
      · simp [h]
      · exact Or.inr (Or.inr (Or.inr ⟨v, hv, by rw [h]⟩))
    · simp
    · simp
    · simp
  · intro hn hl he v hv
    rw [teardownSteps_teardownCalls, hv, removeCalls_tag]
    simp [hn, hl, he]

/-- C2, witness: the jpa variant with collaborators that all return. -/
theorem cleanRegistryDeployment_order_witness :
    ∃ t, (cleanRegistryDeployment allReturn
          { ctx := { ID := "jpa", Storage := "jpa" }, trace := [] }).2.trace = [] ++ t
      ∧ (teardownSteps t = []
          ∨ teardownSteps t = [Call.SaveTestPodsLogs]
          ∨ teardownSteps t = [Call.SaveTestPodsLogs, Call.ExecuteCleanups]
          ∨ ∃ v : Variant, "jpa" = v.tag
              ∧ teardownSteps t = [Call.SaveTestPodsLogs, Call.ExecuteCleanups, Call.remove v])
      ∧ (allReturn.NewForConfigOrDie = some false →
          allReturn.SaveTestPodsLogs = Outcome.returned →
          allReturn.ExecuteCleanups = Outcome.returned → ∀ v : Variant, "jpa" = v.tag →
          teardownSteps t = [Call.SaveTestPodsLogs, Call.ExecuteCleanups, Call.remove v]) :=
  cleanRegistryDeployment_order allReturn
    { ctx := { ID := "jpa", Storage := "jpa" }, trace := [] }

/-- C3: for every storage tag that is none of jpa, streams and infinispan,
`deployRegistryStorage` raises an assertion failure and calls nothing (the trace is
unchanged), and `executeTestOnStorage` ends in a failure with no deploy routine, no test
body and no remove routine called. -/
theorem unknown_storage_fails (k : Collaborators) (testContext : TestContext)
    (testFunction : Outcome) (trace : List Call)
    (hjpa : testContext.Storage ≠ StorageJpa)
    (hstreams : testContext.Storage ≠ StorageStreams)
    (hinfinispan : testContext.Storage ≠ StorageInfinispan) :
    deployRegistryStorage k { ctx := testContext, trace := trace }
        = (Outcome.failed "Storage not implemented", { ctx := testContext, trace := trace })
    ∧ (∃ m, (executeTestOnStorage k testContext testFunction).1 = Outcome.failed m)
    ∧ lifecycle (executeTestOnStorage k testContext testFunction).2.trace = [] := by
  obtain ⟨ID, storage⟩ := testContext
  simp only at hjpa hstreams hinfinispan
  refine ⟨by simp [deployRegistryStorage, hjpa, hstreams, hinfinispan], ?_, ?_⟩ <;>
    by_cases hID : ID = "" <;>
    rcases hn : k.NewForConfigOrDie with _ | _ | _ <;>
    cases hl : k.SaveTestPodsLogs <;> cases he : k.ExecuteCleanups <;>
    simp [executeTestOnStorage, deployAndTest, deployRegistryStorage,
      cleanRegistryDeployment, removeRegistryStorage, call, andThen, lifecycle, defaultID,
      hjpa, hstreams, hinfinispan, hn, hl, he, hID]

/-- C3, witness: the tag `foo`. -/
theorem unknown_storage_fails_witness :
    deployRegistryStorage allReturn { ctx := { ID := "", Storage := "foo" }, trace := [] }
        = (Outcome.failed "Storage not implemented",
            { ctx := { ID := "", Storage := "foo" }, trace := [] })
    ∧ (∃ m, (executeTestOnStorage allReturn { ID := "", Storage := "foo" }
          Outcome.returned).1 = Outcome.failed m)
    ∧ lifecycle (executeTestOnStorage allReturn { ID := "", Storage := "foo" }
          Outcome.returned).2.trace = [] :=
  unknown_storage_fails allReturn { ID := "", Storage := "foo" } Outcome.returned []
    (by decide) (by decide) (by decide)

/-- C10: in `cleanRegistryDeployment` a remove routine is called only after the log capture
and the registered cleanups have both returned, and it is then the last call, right after
them; when the log capture or the cleanups abort no remove routine is called, neither by
`cleanRegistryDeployment` nor anywhere in `executeTestOnStorage`.  For a storage tag that
is none of jpa, streams and infinispan it calls no remove routine and never returns `nil`:
once the steps before the dispatch have returned it returns the error
`Storage not implemented`.  `executeTestOnStorage` drops that value: whenever the deferred
call returns, with `nil` or with an error, the test case ends the way its body did. -/
theorem cleanRegistryDeployment_remove_guarded (k : Collaborators) (s : Run)
    (testContext : TestContext) (testFunction : Outcome) :
    (∃ t, (cleanRegistryDeployment k s).2.trace = s.trace ++ t
      ∧ (∀ v, Call.remove v ∈ t →
          k.SaveTestPodsLogs = Outcome.returned ∧ k.ExecuteCleanups = Outcome.returned
          ∧ ∃ before, t = before ++ [Call.SaveTestPodsLogs, Call.ExecuteCleanups, Call.remove v])
      ∧ (k.SaveTestPodsLogs ≠ Outcome.returned ∨ k.ExecuteCleanups ≠ Outcome.returned →
          ∀ v, Call.remove v ∉ t)
      ∧ (s.ctx.Storage ≠ StorageJpa → s.ctx.Storage ≠ StorageStreams →
          s.ctx.Storage ≠ StorageInfinispan →
          (∀ v, Call.remove v ∉ t)
          ∧ (cleanRegistryDeployment k s).1 ≠ CleanResult.returns none
          ∧ (k.NewForConfigOrDie = some false → k.SaveTestPodsLogs = Outcome.returned →
              k.ExecuteCleanups = Outcome.returned →
              (cleanRegistryDeployment k s).1
                = CleanResult.returns (some "Storage not implemented"))))
    ∧ (k.SaveTestPodsLogs ≠ Outcome.returned ∨ k.ExecuteCleanups ≠ Outcome.returned →
        ∀ v, Call.remove v ∉ (executeTestOnStorage k testContext testFunction).2.trace)
    ∧ (∀ err,
        (cleanRegistryDeployment k
          (deployAndTest k testFunction { ctx := defaultID testContext, trace := [] }).2).1
          = CleanResult.returns err →
        (executeTestOnStorage k testContext testFunction).1
          = (deployAndTest k testFunction { ctx := defaultID testContext, trace := [] }).1) := by
  have hguard : ∀ storage v, Call.remove v ∈ teardownCalls k storage →
      k.SaveTestPodsLogs = Outcome.returned ∧ k.ExecuteCleanups = Outcome.returned := by
    intro storage v hv
    obtain ⟨_, hl, he, _⟩ := mem_teardownCalls_remove k storage v hv
    exact ⟨hl, he⟩
  have hnot : ∀ storage, (k.SaveTestPodsLogs ≠ Outcome.returned
      ∨ k.ExecuteCleanups ≠ Outcome.returned) →
      ∀ v, Call.remove v ∉ teardownCalls k storage := by
    intro storage h v hv
    obtain ⟨hl, he⟩ := hguard storage v hv
    rcases h with h | h
    · exact h hl
    · exact h he
  refine ⟨⟨teardownCalls k s.ctx.Storage, cleanRegistryDeployment_trace k s, ?_, hnot _, ?_⟩,
    ?_, ?_⟩
  · intro v hv
    obtain ⟨_, hl, he, _, ht⟩ := mem_teardownCalls_remove k _ v hv
    exact ⟨hl, he, [Call.info "-----------------------------------------------------------",
      Call.NewForConfigOrDie], by rw [ht]; rfl⟩
  · intro h1 h2 h3
    refine ⟨?_, ?_, ?_⟩
    · intro v hv
      obtain ⟨_, _, _, hst, _⟩ := mem_teardownCalls_remove k _ v hv
      cases v
      · exact h1 hst
      · exact h2 hst
      · exact h3 hst
    · rcases hn : k.NewForConfigOrDie with _ | _ | _ <;>
        cases hl : k.SaveTestPodsLogs <;> cases he : k.ExecuteCleanups <;>
        simp [cleanRegistryDeployment, removeRegistryStorage, call, hn, hl, he, h1, h2, h3]
    · intro hn hl he
      simp [cleanRegistryDeployment, removeRegistryStorage, call, hn, hl, he, h1, h2, h3]
  · intro h v
    rw [executeTestOnStorage_trace]
    simp only [List.mem_append, not_or]
    exact ⟨deployAndTest_no_remove k testFunction _ v (by simp), hnot _ h v⟩
  · intro err herr
    unfold executeTestOnStorage
    simp only []
    split <;> next heq => simp_all

/-- C10, at concrete runs: with a log capture that aborts the jpa remove routine is not
called; with the tag `foo` and collaborators that all return, `cleanRegistryDeployment`
returns the error and the test case ends with the assertion failure of the deploy
dispatch. -/
theorem cleanRegistryDeployment_remove_guarded_witness :
    (∀ v, Call.remove v ∉
        (executeTestOnStorage logCaptureFails { ID := "", Storage := "jpa" }
          Outcome.returned).2.trace)
    ∧ (executeTestOnStorage allReturn { ID := "", Storage := "foo" } Outcome.returned).1
        = (deployAndTest allReturn Outcome.returned
            { ctx := defaultID { ID := "", Storage := "foo" }, trace := [] }).1 :=
  ⟨(cleanRegistryDeployment_remove_guarded logCaptureFails
      { ctx := { ID := "", Storage := "jpa" }, trace := [] } { ID := "", Storage := "jpa" }
      Outcome.returned).2.1 (Or.inl (by decide)),
   (cleanRegistryDeployment_remove_guarded allReturn
      { ctx := { ID := "", Storage := "foo" }, trace := [] } { ID := "", Storage := "foo" }
      Outcome.returned).2.2 (some "Storage not implemented") (by decide)⟩

end Testcase

end ApicurioE2E
